import Mathlib

/-
Verification of the quiz-engine core of `app.py`: question normalization,
import-merge, session-size clamping, exact-match scoring, wrong-answer
tracking and the review pool.  The Python code is shallowly embedded: JSON
values become the inductive `JVal`, Python dicts become ordered association
lists with insert-or-replace semantics, and each core function of `app.py`
is translated into a Lean function of the same name.
-/

set_option maxHeartbeats 1000000

/-- Model of a parsed JSON value (the payloads `app.py` manipulates):
null, booleans, integers, strings, arrays, and string-keyed objects. -/
inductive JVal where
  | null : JVal
  | bool : Bool → JVal
  | int : Int → JVal
  | str : String → JVal
  | list : List JVal → JVal
  | dict : List (String × JVal) → JVal

/-- Characters Python `str.strip` removes (ASCII whitespace). -/
def pyIsSpace (c : Char) : Bool :=
  c == ' ' || c == '\t' || c == '\n' || c == '\r' || c == '\x0b' || c == '\x0c'

/-- Strip leading and trailing whitespace from a character list. -/
def stripChars (l : List Char) : List Char :=
  ((l.dropWhile pyIsSpace).reverse.dropWhile pyIsSpace).reverse

/-- Model of Python `str.strip()`. -/
def pyStrip (s : String) : String :=
  String.mk (stripChars s.data)

/-- Model of Python `str.lower()` (character-wise ASCII lowercasing, the
same mapping as `String.toLower`, defined over the character list so that
it evaluates by reduction). -/
def pyToLower (s : String) : String :=
  String.mk (s.data.map Char.toLower)

/-- Decimal digits of a natural number, most significant first
(helper for the model of Python `str(int)`). -/
def natDigitsAux : Nat → List Char → List Char
  | 0, acc => acc
  | n + 1, acc => natDigitsAux ((n + 1) / 10) (Char.ofNat (48 + (n + 1) % 10) :: acc)
decreasing_by exact Nat.div_lt_self (Nat.succ_pos n) (by omega)

/-- Decimal representation of a natural number. -/
def natRepr (n : Nat) : String :=
  if n = 0 then "0" else String.mk (natDigitsAux n [])

/-- Model of Python `str` on an `int`. -/
def pyIntStr (i : Int) : String :=
  if i < 0 then "-" ++ natRepr i.natAbs else natRepr i.natAbs

mutual
/-- Model of Python `repr` on a JSON-shaped value. -/
def pyRepr : JVal → String
  | .null => "None"
  | .bool b => cond b "True" "False"
  | .int n => pyIntStr n
  | .str s => "\x27" ++ s ++ "\x27"
  | .list l => "[" ++ pyReprJoin l ++ "]"
  | .dict d => "\x7b" ++ pyReprPairs d ++ "\x7d"

/-- Comma-separated reprs of the elements of a list. -/
def pyReprJoin : List JVal → String
  | [] => ""
  | [v] => pyRepr v
  | v :: v2 :: rest => pyRepr v ++ ", " ++ pyReprJoin (v2 :: rest)

/-- Comma-separated `key: value` reprs of the entries of a dict. -/
def pyReprPairs : List (String × JVal) → String
  | [] => ""
  | [(k, v)] => "\x27" ++ k ++ "\x27" ++ ": " ++ pyRepr v
  | (k, v) :: p :: rest => "\x27" ++ k ++ "\x27" ++ ": " ++ pyRepr v ++ ", " ++ pyReprPairs (p :: rest)
end

/-- Model of Python `str()` on a JSON-shaped value: identity on strings,
`repr` otherwise. -/
def pyStr : JVal → String
  | .str s => s
  | v => pyRepr v

/-- Python truthiness of a JSON-shaped value. -/
def jtruthy : JVal → Bool
  | .null => false
  | .bool b => b
  | .int n => n != 0
  | .str s => s != ""
  | .list l => !l.isEmpty
  | .dict d => !d.isEmpty

/-- Model of the Python expression `a or b` (first operand if truthy). -/
def orJ (a b : JVal) : JVal :=
  if jtruthy a then a else b

/-- Model of `d.get(k)` on a Python dict: the value under the first matching
key, `None` when absent. -/
def getJ (d : List (String × JVal)) (k : String) : JVal :=
  match d.find? (fun p => p.1 == k) with
  | some p => p.2
  | none => .null

/-- Model of `d.get(k, default)` on a Python dict. -/
def getJD (d : List (String × JVal)) (k : String) (dflt : JVal) : JVal :=
  match d.find? (fun p => p.1 == k) with
  | some p => p.2
  | none => dflt

/-- Model of Python `sorted` (a stable ascending sort). -/
def pySort {α : Type} [LinearOrder α] (l : List α) : List α :=
  l.insertionSort (fun a b => a ≤ b)

/-- Model of Python `sorted(set(l))`: the ascending enumeration of the
distinct elements of `l`. -/
def pySortedSet {α : Type} [LinearOrder α] (l : List α) : List α :=
  pySort l.dedup

/-- Model of Python `list.index` wrapped in try/except: the first index of
`target`, or `none`. -/
def pyIndex (target : String) : List String → Option Nat
  | [] => none
  | c :: cs => if c == target then some 0 else (pyIndex target cs).map (· + 1)

/-- Canonical quiz item produced by `normalize_question` (the dict shape
returned at app.py lines 110-117). -/
structure Question where
  id : String
  question : String
  choices : List String
  correct_answers : List Nat
  domain : String
  comment : String
deriving DecidableEq, Repr

/-- Python error kinds relevant to the embedding: `ValueError` (raised and
caught by the importer) versus a crash such as `AttributeError`/`TypeError`
(propagates). -/
inductive PyErr where
  | valueError : PyErr
  | typeError : PyErr
deriving DecidableEq, Repr

/-- Model of the stdlib constant `uuid.NAMESPACE_DNS` used at app.py:107. -/
def NAMESPACE_DNS : String := "6ba7b810-9dad-11d1-80b4-00c04fd430c8"

/-- Model of the stdlib function `uuid.uuid5(namespace, name)` (external to
this repository): a name-based hash, i.e. a deterministic pure function of
the namespace and the name.  The exact SHA-1 digest value is opaque to
`app.py`; only determinism and dependence on exactly these two inputs are
relied upon, which this model captures. -/
def uuid5 (ns : String) (name : String) : String :=
  "uuid5:" ++ ns ++ ":" ++ name

/-- One iteration of the answer-resolution loop of
`normalize_correct_answers` (app.py lines 48-66): an int is kept when it is
an in-range index; a string is stripped, matched as a letter when it is a
single in-range letter, and otherwise matched case-insensitively against
the choice texts; anything else is dropped.  Python `bool` is a subclass of
`int`, so a boolean takes the int branch with value 0 or 1. -/
def answerStep (choices : List String) (normalized : List Nat) (answer : JVal) : List Nat :=
  match answer with
  | .int n => if 0 ≤ n ∧ n < choices.length then normalized ++ [n.toNat] else normalized
  | .bool b => if (cond b 1 0) < choices.length then normalized ++ [cond b 1 0] else normalized
  | .str s =>
    let stripped := pyStrip s
    match stripped.data with
    | [c] =>
      if 65 ≤ c.toUpper.toNat ∧ c.toUpper.toNat ≤ 90 then
        if c.toUpper.toNat - 65 < choices.length then normalized ++ [c.toUpper.toNat - 65]
        else
          match pyIndex (pyToLower stripped) (choices.map pyToLower) with
          | some idx => normalized ++ [idx]
          | none => normalized
      else
        match pyIndex (pyToLower stripped) (choices.map pyToLower) with
        | some idx => normalized ++ [idx]
        | none => normalized
    | _ =>
      match pyIndex (pyToLower (pyStrip s)) (choices.map pyToLower) with
      | some idx => normalized ++ [idx]
      | none => normalized
  | _ => normalized

/-- The iterable the answer loop runs over: `None` short-circuits to an
empty result, a scalar is wrapped in a singleton list, a list is iterated
directly, and iterating a dict yields its keys. -/
def toAnswerList : JVal → List JVal
  | .null => []
  | .list l => l
  | .dict d => d.map (fun p => JVal.str p.1)
  | v => [v]

/-- Model of `normalize_correct_answers` (app.py lines 41-67). -/
def normalize_correct_answers (raw_answers : JVal) (choices : List String) : List Nat :=
  pySortedSet ((toAnswerList raw_answers).foldl (answerStep choices) [])

/-- The resolved question text (app.py lines 71-75). -/
def textJ (d : List (String × JVal)) : JVal :=
  orJ (orJ (getJ d "question") (getJ d "text")) (getJ d "prompt")

/-- The resolved raw choices, with a dict converted to its values in key
order (app.py lines 79-82). -/
def choicesJ (d : List (String × JVal)) : JVal :=
  match orJ (getJ d "choices") (getJ d "options") with
  | .dict m => .list ((m.insertionSort (fun a b => a.1 ≤ b.1)).map Prod.snd)
  | v => v

/-- The resolved raw correct-answer field (app.py lines 87-92). -/
def correctJ (d : List (String × JVal)) : JVal :=
  orJ (orJ (orJ (getJ d "correct_answers") (getJ d "correct_answer")) (getJ d "answer"))
    (getJ d "answers")

/-- The resolved domain label (app.py lines 98-101). -/
def domainOf (d : List (String × JVal)) : String :=
  let v := getJD d "domain" (.str "General")
  let d0 := match v with
    | .null => "General"
    | w => pyStrip (pyStr w)
  if d0 = "" then "General" else d0

/-- The resolved comment (app.py lines 102-103). -/
def commentOf (d : List (String × JVal)) : String :=
  pyStrip (pyStr (orJ (orJ (getJ d "comment") (getJ d "explanation")) (.str "")))

/-- The resolved raw id field (app.py line 105). -/
def idJ (d : List (String × JVal)) : JVal :=
  orJ (getJ d "id") (getJ d "uuid")

/-- Model of `normalize_question` on a dict (app.py lines 70-117).  The
`ValueError` checks fire in source order; the final match models the crash
(`AttributeError`) that `question_text.strip()` / `uuid.uuid5` raise when a
truthy non-string text reaches them, which in the source happens only after
every `ValueError` check has passed. -/
def normalizeDict (d : List (String × JVal)) : Except PyErr Question :=
  if jtruthy (textJ d) = false then .error .valueError
  else
    match choicesJ d with
    | .list cl =>
      if cl.length < 2 then .error .valueError
      else
        let choices := cl.map pyStr
        let ca := normalize_correct_answers (correctJ d) choices
        if ca = [] then .error .valueError
        else
          match textJ d with
          | .str qtext =>
            .ok
              { id :=
                  if jtruthy (idJ d) then pyStr (idJ d)
                  else uuid5 (uuid5 NAMESPACE_DNS qtext) "cissp-question"
                question := pyStrip qtext
                choices := choices
                correct_answers := ca
                domain := domainOf d
                comment := commentOf d }
          | _ => .error .typeError
    | _ => .error .valueError

/-- Model of `normalize_question` (app.py lines 70-117); calling `.get` on a
non-dict record crashes rather than raising `ValueError`. -/
def normalize_question : JVal → Except PyErr Question
  | .dict d => normalizeDict d
  | _ => .error .typeError

/-- One Python dict assignment `d[f r] = r` on an ordered association list:
replace in place when the key exists, append otherwise. -/
def dinsert {α : Type} (f : α → String) (acc : List (String × α)) (r : α) :
    List (String × α) :=
  if acc.any (fun p => p.1 == f r) then
    acc.map (fun p => if p.1 = f r then (p.1, r) else p)
  else acc ++ [(f r, r)]

/-- Model of a Python dict comprehension `{f(r): r for r in l}` as an
ordered association list (insertion order, later duplicates overwrite in
place). -/
def dictBuild {α : Type} (f : α → String) (l : List α) : List (String × α) :=
  l.foldl (dinsert f) []

/-- Counts returned by the importer. -/
structure ImportStats where
  imported : Nat
  updated : Nat
deriving DecidableEq, Repr

/-- Top-level shape handling of `import_questions` (app.py lines 124-132):
a dict exposes `questions` or `data` (default empty list), a dict there is
replaced by its values, and anything that is not a list by then is a
`ValueError`. -/
def extractItems : JVal → Except PyErr (List JVal)
  | .dict d =>
    let items0 := orJ (orJ (getJ d "questions") (getJ d "data")) (.list [])
    let items1 := match items0 with
      | .dict m => JVal.list (m.map Prod.snd)
      | v => v
    match items1 with
    | .list l => .ok l
    | _ => .error .valueError
  | .list l => .ok l
  | _ => .error .valueError

/-- The record loop of `import_questions` (app.py lines 134-144): a record
failing normalization with `ValueError` is skipped; a crash propagates; a
normalized question is upserted, bumping `updated` when its id was already
a key and `imported` otherwise. -/
def importLoop (m : List (String × Question)) (items : List JVal) (imported updated : Nat) :
    Except PyErr (List (String × Question) × Nat × Nat) :=
  match items with
  | [] => .ok (m, imported, updated)
  | x :: rest =>
    match normalize_question x with
    | .error .valueError => importLoop m rest imported updated
    | .error e => .error e
    | .ok q =>
      if m.any (fun p => p.1 == q.id) then
        importLoop (dinsert Question.id m q) rest imported (updated + 1)
      else importLoop (dinsert Question.id m q) rest (imported + 1) updated

/-- Model of `import_questions` (app.py lines 120-147) over an explicit
question-store file: returns the counts (or the raised error) together with
the file contents afterwards.  On any error the save at line 146 is never
reached, so the file is returned unchanged. -/
def import_questions (file : List Question) (raw_data : JVal) :
    Except PyErr ImportStats × List Question :=
  let existing := dictBuild Question.id file
  match extractItems raw_data with
  | .error e => (.error e, file)
  | .ok items =>
    match importLoop existing items 0 0 with
    | .error e => (.error e, file)
    | .ok (m, imported, updated) => (.ok ⟨imported, updated⟩, m.map Prod.snd)

/-- Mistake record persisted in `wrong_questions.json` (app.py lines
172-177). -/
structure WrongRec where
  question_id : String
  wrong_count : Int
  last_attempt : String
  last_answer : List Int
deriving DecidableEq, Repr

/-- Model of `update_wrong_answers` (app.py lines 158-178) over an explicit
store; `now` stands for `datetime.utcnow().isoformat()`.  A correct answer
filters the original list (no save when nothing was present); an incorrect
answer either bumps the existing record inside the id-keyed lookup or
appends a fresh record, and persists the lookup values. -/
def update_wrong_answers (store : List WrongRec) (question_id : String)
    (selected_indices : List Int) (is_correct : Bool) (now : String) : List WrongRec :=
  let lookup := dictBuild WrongRec.question_id store
  if is_correct then
    if lookup.any (fun p => p.1 == question_id) then
      store.filter (fun r => !(r.question_id == question_id))
    else store
  else
    if lookup.any (fun p => p.1 == question_id) then
      (lookup.map (fun p =>
        if p.1 = question_id then
          (p.1, { p.2 with
                    wrong_count := p.2.wrong_count + 1
                    last_attempt := now
                    last_answer := selected_indices })
        else p)).map Prod.snd
    else
      (lookup ++ [(question_id, (⟨question_id, 1, now, selected_indices⟩ : WrongRec))]).map
        Prod.snd

/-- Model of the review pool (app.py lines 315-318): the stored questions
whose id is a key of the wrong-answer lookup. -/
def review_pool (questions : List Question) (wrong_answers : List WrongRec) : List Question :=
  let wrong_lookup := dictBuild WrongRec.question_id wrong_answers
  questions.filter (fun q => wrong_lookup.any (fun p => p.1 == q.id))

/-- Model of `int(request.form.get("total_questions", 0))` with its
`except ValueError` handler (app.py lines 237-240): a non-numeric form
value parses to `none` and is treated as 0. -/
def parse_count (form_value : Option Int) : Int :=
  form_value.getD 0

/-- The effective session size (app.py line 246):
`max(1, min(total_questions or len(filtered), len(filtered)))`, where
`x or y` yields `y` exactly when `x == 0`. -/
def effective_count (total_questions : Int) (pool_len : Nat) : Int :=
  max 1 (min (if total_questions = 0 then (pool_len : Int) else total_questions) (pool_len : Int))

/-- The integer clamp the specification describes: `clamp(x, lo, hi)`. -/
def clamp (x lo hi : Int) : Int :=
  max lo (min x hi)

/-- The domain filter of `new_test` (app.py line 242): keep every question
when no domain (or an empty one) is selected, else exact match. -/
def filtered_pool (questions : List Question) (selected_domain : Option String) :
    List Question :=
  questions.filter (fun q =>
    match selected_domain with
    | none => true
    | some s => s == "" || q.domain == s)

/-- Specification of the stdlib call `random.sample(pool, k)` (external to
this repository): some `k` distinct positions of the pool, in some order.
Formally: a list of length `k` that is a permutation of a sublist of the
pool. -/
def IsSample {α : Type} (pool : List α) (k : Nat) (s : List α) : Prop :=
  s.length = k ∧ ∃ t, t.Sublist pool ∧ s.Perm t

/-- An in-progress test session (the `session["current_test"]` payload,
app.py lines 248-252). -/
structure TestSession where
  questions : List Question
  timestamp : String
  mode : String

/-- The sessions `new_test` can create on a POST (app.py lines 236-253):
the filtered pool is non-empty, and the questions are a `random.sample` of
the filtered pool of the effective (clamped) size. -/
def new_test_session (questions : List Question) (selected_domain : Option String)
    (total_questions : Int) (now : String) (sess : TestSession) : Prop :=
  let filtered := filtered_pool questions selected_domain
  filtered ≠ [] ∧
    IsSample filtered (effective_count total_questions filtered.length).toNat sess.questions ∧
    sess.timestamp = now ∧ sess.mode = "standard"

/-- Per-question scoring of `submit_test` (app.py lines 277-280): the
submitted selection is deduplicated and sorted (absent selection means an
empty list) and compared for equality with the sorted stored
correct-answer list. -/
def score_question (selected_indices : List Int) (correct_answers : List Nat) : Bool :=
  let selected :=
    if selected_indices.isEmpty then [] else pySortedSet selected_indices
  selected == pySort (correct_answers.map Int.ofNat)

/-- The key-value pairs of the JSON record shape that `normalize_question`
returns and the store persists (app.py lines 110-117, spec section 6). -/
def qPairs (q : Question) : List (String × JVal) :=
  [("id", .str q.id),
   ("question", .str q.question),
   ("choices", .list (q.choices.map JVal.str)),
   ("correct_answers", .list (q.correct_answers.map (fun i => JVal.int (Int.ofNat i)))),
   ("domain", .str q.domain),
   ("comment", .str q.comment)]

/-- The canonical Question rendered back to its JSON record shape, used to
state idempotence of normalization. -/
def questionToJ (q : Question) : JVal :=
  .dict (qPairs q)

/-- Shape predicate transcribed from the specification wording of claim C8:
the payload is neither a sequence of records nor an object whose
`questions`/`data` field yields a sequence or a mapping of records (a falsy
field counts as absent and defaults to an empty sequence). -/
def badShapeSpec : JVal → Bool
  | .list _ => false
  | .dict d =>
    (match orJ (getJ d "questions") (getJ d "data") with
     | .list _ => false
     | .dict _ => false
     | v => jtruthy v)
  | _ => true

/-- The canonical-Question invariant of claim C6: a non-empty,
duplicate-free, ascending correct-answer list of in-range indices, and at
least two choices. -/
def QInvariant (q : Question) : Prop :=
  q.correct_answers ≠ [] ∧ q.correct_answers.Nodup ∧
    q.correct_answers.Sorted (· ≤ ·) ∧
    (∀ i ∈ q.correct_answers, i < q.choices.length) ∧ 2 ≤ q.choices.length

/-- Lookup in the ordered association-list model of a Python dict
(`d[k]` when present). -/
def lookupD {α : Type} (m : List (String × α)) (k : String) : Option α :=
  match m.find? (fun p => p.1 == k) with
  | some p => some p.2
  | none => none

theorem pySort_sorted {α : Type} [LinearOrder α] (l : List α) :
    (pySort l).Sorted (fun a b => a ≤ b) :=
  List.sorted_insertionSort _ l

theorem pySort_perm {α : Type} [LinearOrder α] (l : List α) : (pySort l).Perm l :=
  List.perm_insertionSort _ l

theorem pySortedSet_nodup {α : Type} [LinearOrder α] (l : List α) : (pySortedSet l).Nodup :=
  ((pySort_perm l.dedup).nodup_iff).mpr l.nodup_dedup

theorem pySortedSet_sorted {α : Type} [LinearOrder α] (l : List α) :
    (pySortedSet l).Sorted (fun a b => a ≤ b) :=
  pySort_sorted l.dedup

theorem dedup_toFinset {α : Type} [DecidableEq α] (l : List α) :
    l.dedup.toFinset = l.toFinset := by
  apply List.toFinset.ext
  intro x
  exact List.mem_dedup

theorem pySortedSet_toFinset {α : Type} [LinearOrder α] (l : List α) :
    (pySortedSet l).toFinset = l.toFinset := by
  rw [pySortedSet, List.toFinset_eq_of_perm _ _ (pySort_perm l.dedup)]
  exact dedup_toFinset l

theorem sorted_nodup_toFinset_eq {α : Type} [LinearOrder α] {l1 l2 : List α}
    (s1 : l1.Sorted (fun a b => a ≤ b)) (n1 : l1.Nodup)
    (s2 : l2.Sorted (fun a b => a ≤ b)) (n2 : l2.Nodup)
    (h : l1.toFinset = l2.toFinset) : l1 = l2 :=
  List.eq_of_perm_of_sorted (List.perm_of_nodup_nodup_toFinset_eq n1 n2 h) s1 s2

theorem pySort_eq_self {α : Type} [LinearOrder α] {l : List α}
    (h : l.Sorted (fun a b => a ≤ b)) : pySort l = l :=
  h.insertionSort_eq

theorem pySortedSet_eq_self {α : Type} [LinearOrder α] {l : List α}
    (hs : l.Sorted (fun a b => a ≤ b)) (hn : l.Nodup) : pySortedSet l = l := by
  rw [pySortedSet, hn.dedup]
  exact hs.insertionSort_eq

theorem headOK_dropWhile (p : Char → Bool) (l : List Char) :
    ∀ c, (l.dropWhile p).head? = some c → p c = false := by
  induction l with
  | nil => simp [List.dropWhile]
  | cons a t ih =>
    intro c h
    by_cases hp : p a
    · rw [List.dropWhile_cons_of_pos hp] at h
      exact ih c h
    · rw [List.dropWhile_cons_of_neg hp] at h
      simp only [List.head?_cons, Option.some.injEq] at h
      rw [← h]
      exact Bool.of_not_eq_true hp

theorem dropWhile_eq_self_of_headOK (p : Char → Bool) (l : List Char)
    (h : ∀ c, l.head? = some c → p c = false) : l.dropWhile p = l := by
  cases l with
  | nil => rfl
  | cons a t => exact List.dropWhile_cons_of_neg (by simp [h a rfl])

theorem stripChars_idem (l : List Char) : stripChars (stripChars l) = stripChars l := by
  have hsuf := List.dropWhile_suffix (l := (l.dropWhile pyIsSpace).reverse) pyIsSpace
  obtain ⟨t, ht⟩ := hsuf
  have hpre :
      ((l.dropWhile pyIsSpace).reverse.dropWhile pyIsSpace).reverse ++ t.reverse
        = l.dropWhile pyIsSpace := by
    have h2 := congrArg List.reverse ht
    simpa [List.reverse_append] using h2
  have h1 :
      (((l.dropWhile pyIsSpace).reverse.dropWhile pyIsSpace).reverse).dropWhile pyIsSpace
        = ((l.dropWhile pyIsSpace).reverse.dropWhile pyIsSpace).reverse := by
    apply dropWhile_eq_self_of_headOK
    intro c hc
    have hA : (l.dropWhile pyIsSpace).head? = some c := by
      rw [← hpre]
      cases hcr : ((l.dropWhile pyIsSpace).reverse.dropWhile pyIsSpace).reverse with
      | nil => rw [hcr] at hc; simp at hc
      | cons x xs =>
        rw [hcr] at hc
        simp only [List.head?_cons, Option.some.injEq] at hc
        simp [hc]
    exact headOK_dropWhile pyIsSpace l c hA
  show ((((((l.dropWhile pyIsSpace).reverse.dropWhile pyIsSpace).reverse).dropWhile
      pyIsSpace).reverse).dropWhile pyIsSpace).reverse = _
  rw [h1, List.reverse_reverse,
    dropWhile_eq_self_of_headOK pyIsSpace _
      (fun c hc => headOK_dropWhile pyIsSpace (l.dropWhile pyIsSpace).reverse c hc)]
  rfl

theorem pyStrip_idem (s : String) : pyStrip (pyStrip s) = pyStrip s := by
  apply String.ext
  show stripChars (stripChars s.data) = stripChars s.data
  exact stripChars_idem s.data

theorem orJ_pos {a b : JVal} (h : jtruthy a = true) : orJ a b = a := by
  simp [orJ, h]

theorem orJ_neg {a b : JVal} (h : jtruthy a = false) : orJ a b = b := by
  simp [orJ, h]

theorem any_key_iff {α : Type} (m : List (String × α)) (k : String) :
    m.any (fun p => p.1 == k) = true ↔ k ∈ m.map Prod.fst := by
  simp only [List.any_eq_true, List.mem_map, beq_iff_eq]

theorem dinsert_fst {α : Type} (f : α → String) (r : α) (p : String × α) :
    (if p.1 = f r then (p.1, r) else p).1 = p.1 := by
  split <;> rfl

theorem dinsert_keys {α : Type} (f : α → String) (acc : List (String × α)) (r : α) :
    (dinsert f acc r).map Prod.fst =
      if acc.any (fun p => p.1 == f r) then acc.map Prod.fst
      else acc.map Prod.fst ++ [f r] := by
  unfold dinsert
  split
  · rw [List.map_map]
    exact List.map_congr_left (fun p _ => dinsert_fst f r p)
  · simp

theorem foldl_dinsert_keys_mem {α : Type} (f : α → String) (l : List α) :
    ∀ (acc : List (String × α)) (k : String),
      k ∈ (l.foldl (dinsert f) acc).map Prod.fst ↔
        k ∈ acc.map Prod.fst ∨ ∃ r ∈ l, f r = k := by
  induction l with
  | nil => simp
  | cons x t ih =>
    intro acc k
    rw [List.foldl_cons, ih, dinsert_keys]
    by_cases hx : acc.any (fun p => p.1 == f x) = true
    · rw [if_pos hx]
      have hxk := (any_key_iff acc (f x)).mp hx
      simp only [List.mem_cons]
      constructor
      · rintro (h | ⟨r, hr, hfr⟩)
        · exact Or.inl h
        · exact Or.inr ⟨r, Or.inr hr, hfr⟩
      · rintro (h | ⟨r, rfl | hr, hfr⟩)
        · exact Or.inl h
        · exact Or.inl (hfr ▸ hxk)
        · exact Or.inr ⟨r, hr, hfr⟩
    · rw [if_neg hx]
      simp only [List.mem_append, List.mem_cons, List.not_mem_nil, or_false]
      constructor
      · rintro ((h | rfl) | ⟨r, hr, hfr⟩)
        · exact Or.inl h
        · exact Or.inr ⟨x, Or.inl rfl, rfl⟩
        · exact Or.inr ⟨r, Or.inr hr, hfr⟩
      · rintro (h | ⟨r, rfl | hr, hfr⟩)
        · exact Or.inl (Or.inl h)
        · exact Or.inl (Or.inr hfr.symm)
        · exact Or.inr ⟨r, hr, hfr⟩

theorem foldl_dinsert_keys_nodup {α : Type} (f : α → String) (l : List α) :
    ∀ acc : List (String × α),
      (acc.map Prod.fst).Nodup → ((l.foldl (dinsert f) acc).map Prod.fst).Nodup := by
  induction l with
  | nil => exact fun acc h => h
  | cons x t ih =>
    intro acc hacc
    rw [List.foldl_cons]
    apply ih
    rw [dinsert_keys]
    by_cases hx : acc.any (fun p => p.1 == f x) = true
    · rwa [if_pos hx]
    · rw [if_neg hx, List.nodup_append]
      refine ⟨hacc, List.nodup_singleton _, ?_⟩
      intro a ha hb
      rw [List.mem_singleton] at hb
      subst hb
      exact hx ((any_key_iff acc (f x)).mpr ha)

theorem dictBuild_keys_mem {α : Type} (f : α → String) (l : List α) (k : String) :
    k ∈ (dictBuild f l).map Prod.fst ↔ ∃ r ∈ l, f r = k := by
  rw [dictBuild, foldl_dinsert_keys_mem]
  simp

theorem dictBuild_keys_nodup {α : Type} (f : α → String) (l : List α) :
    ((dictBuild f l).map Prod.fst).Nodup :=
  foldl_dinsert_keys_nodup f l [] (by simp)

theorem dictBuild_any_iff {α : Type} (f : α → String) (l : List α) (k : String) :
    (dictBuild f l).any (fun p => p.1 == k) = true ↔ ∃ r ∈ l, f r = k := by
  rw [any_key_iff, dictBuild_keys_mem]

theorem foldl_dinsert_snd_key {α : Type} (f : α → String) (l : List α) :
    ∀ acc : List (String × α), (∀ p ∈ acc, f p.2 = p.1) →
      ∀ p ∈ l.foldl (dinsert f) acc, f p.2 = p.1 := by
  induction l with
  | nil => exact fun acc h => h
  | cons x t ih =>
    intro acc hacc
    rw [List.foldl_cons]
    apply ih
    intro p hp
    unfold dinsert at hp
    split at hp
    · rw [List.mem_map] at hp
      obtain ⟨p0, hp0, hpe⟩ := hp
      by_cases he : p0.1 = f x
      · rw [if_pos he] at hpe
        rw [← hpe, he]
      · rw [if_neg he] at hpe
        exact hpe ▸ hacc p0 hp0
    · rcases List.mem_append.mp hp with h | h
      · exact hacc p h
      · rw [List.mem_singleton] at h
        subst h
        rfl

theorem dictBuild_snd_key {α : Type} (f : α → String) (l : List α) :
    ∀ p ∈ dictBuild f l, f p.2 = p.1 :=
  foldl_dinsert_snd_key f l [] (by simp)

theorem foldl_dinsert_fresh {α : Type} (f : α → String) (l : List α) :
    ∀ acc : List (String × α), (l.map f).Nodup →
      (∀ r ∈ l, ¬ f r ∈ acc.map Prod.fst) →
      l.foldl (dinsert f) acc = acc ++ l.map (fun r => (f r, r)) := by
  induction l with
  | nil => simp
  | cons x t ih =>
    intro acc hnd hfresh
    rw [List.foldl_cons]
    have hx : acc.any (fun p => p.1 == f x) = false := by
      rw [← Bool.not_eq_true]
      intro hc
      exact hfresh x (List.mem_cons_self x t) ((any_key_iff acc (f x)).mp hc)
    have hdin : dinsert f acc x = acc ++ [(f x, x)] := by
      unfold dinsert
      rw [if_neg (by rw [hx]; exact Bool.false_ne_true)]
    rw [hdin, ih (acc ++ [(f x, x)]) (by
        rw [List.map_cons] at hnd
        exact hnd.of_cons)
      (by
        intro r hr
        rw [List.map_append, List.mem_append]
        rintro (h | h)
        · exact hfresh r (List.mem_cons_of_mem x hr) h
        · simp only [List.map_cons, List.map_nil, List.mem_singleton] at h
          rw [List.map_cons] at hnd
          exact (List.nodup_cons.mp hnd).1 (h ▸ List.mem_map_of_mem f hr))]
    simp

theorem dictBuild_of_nodup {α : Type} (f : α → String) (l : List α)
    (h : (l.map f).Nodup) : dictBuild f l = l.map (fun r => (f r, r)) := by
  rw [dictBuild, foldl_dinsert_fresh f l [] h (by simp)]
  rfl

theorem score_question_eq (sel : List Int) (ca : List Nat) :
    score_question sel ca = (pySortedSet sel == pySort (ca.map Int.ofNat)) := by
  cases sel <;> rfl

/-- C9: for every question collection and wrong-answer store state, the
review pool is exactly the subsequence of the stored questions whose id has
a wrong-answer record. -/
theorem review_pool_exact (questions : List Question) (wrong_answers : List WrongRec) :
    (review_pool questions wrong_answers).Sublist questions ∧
    ∀ q, q ∈ review_pool questions wrong_answers ↔
      q ∈ questions ∧ ∃ r ∈ wrong_answers, r.question_id = q.id := by
  constructor
  · show (questions.filter _).Sublist questions
    exact List.filter_sublist _
  · intro q
    simp only [review_pool, List.mem_filter]
    constructor
    · rintro ⟨h1, h2⟩
      exact ⟨h1, (dictBuild_any_iff _ _ _).mp h2⟩
    · rintro ⟨h1, h2⟩
      exact ⟨h1, (dictBuild_any_iff _ _ _).mpr h2⟩

/-- C2: an answer is scored correct iff the deduplicated sorted selection
equals the correct-answer set exactly; strict subsets, strict supersets,
and an empty selection against a non-empty correct set all score false.
The stored `correct_answers` list of any imported question is
duplicate-free (claim C6), which the hypothesis records. -/
theorem scoring_exact (sel : List Int) (ca : List Nat) (h : ca.Nodup) :
    (score_question sel ca = true ↔ sel.toFinset = (ca.map Int.ofNat).toFinset) ∧
    (sel.toFinset ⊂ (ca.map Int.ofNat).toFinset → score_question sel ca = false) ∧
    ((ca.map Int.ofNat).toFinset ⊂ sel.toFinset → score_question sel ca = false) ∧
    (sel = [] → ca ≠ [] → score_question sel ca = false) := by
  have hmapnd : (ca.map Int.ofNat).Nodup := h.map (fun a b hab => Int.ofNat.inj hab)
  have hRnd : (pySort (ca.map Int.ofNat)).Nodup := (pySort_perm _).nodup_iff.mpr hmapnd
  have key : score_question sel ca = true ↔
      sel.toFinset = (ca.map Int.ofNat).toFinset := by
    rw [score_question_eq, beq_iff_eq]
    constructor
    · intro he
      have h2 := congrArg List.toFinset he
      rwa [pySortedSet_toFinset, List.toFinset_eq_of_perm _ _ (pySort_perm _)] at h2
    · intro hf
      apply sorted_nodup_toFinset_eq (pySortedSet_sorted _) (pySortedSet_nodup _)
        (pySort_sorted _) hRnd
      rw [pySortedSet_toFinset, List.toFinset_eq_of_perm _ _ (pySort_perm _)]
      exact hf
  refine ⟨key, ?_, ?_, ?_⟩
  · intro hss
    rw [Bool.eq_false_iff]
    intro he
    exact hss.ne (key.mp he)
  · intro hss
    rw [Bool.eq_false_iff]
    intro he
    exact hss.ne (key.mp he).symm
  · intro hsel hca
    rw [Bool.eq_false_iff]
    intro he
    have hf := key.mp he
    subst hsel
    obtain ⟨a, ha⟩ := List.exists_mem_of_ne_nil ca hca
    have hmem : (a : Int) ∈ (ca.map Int.ofNat).toFinset := by
      rw [List.mem_toFinset]
      exact List.mem_map_of_mem _ ha
    rw [← hf] at hmem
    simp at hmem

theorem scoring_exact_witness :
    List.Nodup [0, 1] ∧ score_question [1, 0] [0, 1] = true ∧
      score_question [0] [0, 1] = false ∧ score_question [] [0] = false := by
  have h01 : List.Nodup [0, 1] := by decide
  refine ⟨h01, ?_, ?_, ?_⟩
  · exact (scoring_exact [1, 0] [0, 1] h01).1.mpr (by decide)
  · exact (scoring_exact [0] [0, 1] h01).2.1 (by decide)
  · exact (scoring_exact [] [0] (by decide)).2.2.2 rfl (by decide)

/-- C1 (amended): for a non-empty filtered pool, a requested count above
the pool size yields a session of exactly the pool size; a zero or
non-numeric requested count yields the full filtered pool; a negative
requested count clamps to a single question (not the full pool); and in
all cases the effective count is `clamp(requested or len(pool), 1,
len(pool))`. -/
theorem session_count_clamp (questions : List Question) (selected_domain : Option String)
    (form_value : Option Int) (now : String) (sess : TestSession)
    (h : new_test_session questions selected_domain (parse_count form_value) now sess) :
    (parse_count form_value > (filtered_pool questions selected_domain).length →
      sess.questions.length = (filtered_pool questions selected_domain).length) ∧
    (form_value = none →
      sess.questions.length = (filtered_pool questions selected_domain).length) ∧
    (parse_count form_value = 0 →
      sess.questions.length = (filtered_pool questions selected_domain).length) ∧
    (parse_count form_value < 0 → sess.questions.length = 1) ∧
    effective_count (parse_count form_value) (filtered_pool questions selected_domain).length =
      clamp
        (if parse_count form_value = 0 then
          ((filtered_pool questions selected_domain).length : Int)
        else parse_count form_value)
        1 (filtered_pool questions selected_domain).length := by
  obtain ⟨hne, hsample, -, -⟩ := h
  have hn : 1 ≤ (filtered_pool questions selected_domain).length :=
    List.length_pos.mpr hne
  have hlen := hsample.1
  refine ⟨?_, ?_, ?_, ?_, rfl⟩
  · intro hgt
    rw [hlen]
    unfold effective_count
    rw [if_neg (by omega)]
    omega
  · intro hnone
    subst hnone
    have h0 : parse_count (none : Option Int) = 0 := rfl
    rw [hlen, h0]
    unfold effective_count
    rw [if_pos rfl]
    omega
  · intro hz
    rw [hlen, hz]
    unfold effective_count
    rw [if_pos rfl]
    omega
  · intro hneg
    rw [hlen]
    unfold effective_count
    rw [if_neg (by omega)]
    omega

theorem session_count_clamp_witness :
    new_test_session [⟨"w1", "qw", ["a", "b"], [0], "General", ""⟩] none
        (parse_count (some 5)) "t"
        ⟨[⟨"w1", "qw", ["a", "b"], [0], "General", ""⟩], "t", "standard"⟩ ∧
      (⟨[⟨"w1", "qw", ["a", "b"], [0], "General", ""⟩], "t", "standard"⟩ :
          TestSession).questions.length =
        (filtered_pool [⟨"w1", "qw", ["a", "b"], [0], "General", ""⟩] none).length := by
  have h : new_test_session [⟨"w1", "qw", ["a", "b"], [0], "General", ""⟩] none
      (parse_count (some 5)) "t"
      ⟨[⟨"w1", "qw", ["a", "b"], [0], "General", ""⟩], "t", "standard"⟩ := by
    refine ⟨by decide, ⟨by decide, [⟨"w1", "qw", ["a", "b"], [0], "General", ""⟩], ?_, ?_⟩,
      rfl, rfl⟩
    · exact List.Sublist.refl _
    · exact List.Perm.refl _
  exact ⟨h, (session_count_clamp _ _ _ _ _ h).1 (by decide)⟩

/-- C1 counterexample: the claim says any requested count ≤ 0 yields the
full filtered pool, but with a filtered pool of two questions and a
requested count of -1 the code produces a one-question session. -/
theorem session_count_clamp_counterexample :
    ((-1 : Int) ≤ 0) ∧
    new_test_session
      [⟨"a1", "qa", ["x", "y"], [0], "General", ""⟩,
       ⟨"b1", "qb", ["x", "y"], [0], "General", ""⟩]
      none (-1) "t"
      ⟨[⟨"a1", "qa", ["x", "y"], [0], "General", ""⟩], "t", "standard"⟩ ∧
    (⟨[⟨"a1", "qa", ["x", "y"], [0], "General", ""⟩], "t", "standard"⟩ :
        TestSession).questions.length ≠
      (filtered_pool
        [⟨"a1", "qa", ["x", "y"], [0], "General", ""⟩,
         ⟨"b1", "qb", ["x", "y"], [0], "General", ""⟩] none).length := by
  refine ⟨by decide, ⟨by decide, ⟨by decide,
    [⟨"a1", "qa", ["x", "y"], [0], "General", ""⟩], ?_, List.Perm.refl _⟩, rfl, rfl⟩, by decide⟩
  exact (List.nil_sublist _).cons₂ _

theorem filter_map_update (l : List WrongRec) (qid : String) (sel : List Int) (now : String) :
    (l.map (fun r => if r.question_id = qid then
        (⟨r.question_id, r.wrong_count + 1, now, sel⟩ : WrongRec) else r)).filter
        (fun r => !(r.question_id == qid)) =
      l.filter (fun r => !(r.question_id == qid)) := by
  induction l with
  | nil => rfl
  | cons r t ih =>
    by_cases hr : r.question_id = qid
    · simp only [List.map_cons, if_pos hr, List.filter_cons]
      rw [hr]
      simpa using ih
    · simp only [List.map_cons, if_neg hr, List.filter_cons]
      rw [ih]

/-- C5: a correct answer removes any record for the question (no-op when
none exists); an incorrect answer increments an existing record and
overwrites its last attempt and answer, or creates a fresh record with
wrong count 1; records for other question ids are never affected.  The
hypothesis records the store invariant that ids are unique (the store is
only ever written from an id-keyed dict). -/
theorem wrong_answer_lifecycle (store : List WrongRec) (qid : String) (sel : List Int)
    (now : String) (h : (store.map WrongRec.question_id).Nodup) :
    (update_wrong_answers store qid sel true now =
      store.filter (fun r => !(r.question_id == qid))) ∧
    ((∀ r ∈ store, r.question_id ≠ qid) → update_wrong_answers store qid sel true now = store) ∧
    ((∃ r ∈ store, r.question_id = qid) →
      update_wrong_answers store qid sel false now =
        store.map (fun r => if r.question_id = qid then
          (⟨r.question_id, r.wrong_count + 1, now, sel⟩ : WrongRec) else r)) ∧
    ((∀ r ∈ store, r.question_id ≠ qid) →
      update_wrong_answers store qid sel false now =
        store ++ [(⟨qid, 1, now, sel⟩ : WrongRec)]) ∧
    (∀ b : Bool, (update_wrong_answers store qid sel b now).filter
        (fun r => !(r.question_id == qid)) =
      store.filter (fun r => !(r.question_id == qid))) := by
  have hdb : dictBuild WrongRec.question_id store =
      store.map (fun r => (r.question_id, r)) := dictBuild_of_nodup _ _ h
  have hkey : ((dictBuild WrongRec.question_id store).any (fun p => p.1 == qid) = true) ↔
      ∃ r ∈ store, r.question_id = qid := dictBuild_any_iff _ _ _
  have habsent : (∀ r ∈ store, r.question_id ≠ qid) →
      (dictBuild WrongRec.question_id store).any (fun p => p.1 == qid) = false := by
    intro hall
    rw [← Bool.not_eq_true]
    intro hc
    obtain ⟨r, hr, he⟩ := hkey.mp hc
    exact hall r hr he
  have hcorrect : update_wrong_answers store qid sel true now =
      store.filter (fun r => !(r.question_id == qid)) := by
    simp only [update_wrong_answers]
    by_cases hp : (dictBuild WrongRec.question_id store).any (fun p => p.1 == qid) = true
    · simp [hp]
    · simp only [Bool.not_eq_true] at hp
      simp only [hp, Bool.false_eq_true, if_false, if_true, ite_true, ite_false]
      rw [eq_comm]
      apply List.filter_eq_self.mpr
      intro r hr
      have : r.question_id ≠ qid := by
        intro he
        rw [← Bool.not_eq_true] at hp
        exact hp (hkey.mpr ⟨r, hr, he⟩)
      simpa using this
  have hupd : (∃ r ∈ store, r.question_id = qid) →
      update_wrong_answers store qid sel false now =
        store.map (fun r => if r.question_id = qid then
          (⟨r.question_id, r.wrong_count + 1, now, sel⟩ : WrongRec) else r) := by
    intro hp
    simp only [update_wrong_answers]
    rw [if_neg (by simp), if_pos (hkey.mpr hp), hdb, List.map_map, List.map_map]
    apply List.map_congr_left
    intro r _
    by_cases hr : r.question_id = qid
    · simp [hr]
    · simp [hr]
  have hnew : (∀ r ∈ store, r.question_id ≠ qid) →
      update_wrong_answers store qid sel false now =
        store ++ [(⟨qid, 1, now, sel⟩ : WrongRec)] := by
    intro hall
    simp only [update_wrong_answers]
    rw [if_neg (by simp), if_neg (by rw [habsent hall]; exact Bool.false_ne_true), hdb]
    rw [List.map_append, List.map_map]
    have hid : (Prod.snd ∘ fun r : WrongRec => (r.question_id, r)) = id := rfl
    rw [hid, List.map_id]
    rfl
  refine ⟨hcorrect, ?_, hupd, hnew, ?_⟩
  · intro hall
    rw [hcorrect, List.filter_eq_self]
    intro r hr
    simpa using hall r hr
  · intro b
    cases b
    · by_cases hp : ∃ r ∈ store, r.question_id = qid
      · rw [hupd hp, filter_map_update]
      · push_neg at hp
        rw [hnew hp, List.filter_append]
        simp
    · rw [hcorrect]
      rw [List.filter_filter]
      apply List.filter_congr
      intro r _
      simp

theorem wrong_answer_lifecycle_witness :
    (([⟨"q1", 1, "t0", [0]⟩] : List WrongRec).map WrongRec.question_id).Nodup ∧
    update_wrong_answers [⟨"q1", 1, "t0", [0]⟩] "q1" [1, 2] false "t1" =
      [⟨"q1", 2, "t1", [1, 2]⟩] ∧
    update_wrong_answers [⟨"q1", 1, "t0", [0]⟩] "q1" [] true "t1" = [] ∧
    update_wrong_answers [⟨"q1", 1, "t0", [0]⟩] "q2" [0] false "t1" =
      [⟨"q1", 1, "t0", [0]⟩, ⟨"q2", 1, "t1", [0]⟩] := by
  have hnd : (([⟨"q1", 1, "t0", [0]⟩] : List WrongRec).map WrongRec.question_id).Nodup := by
    decide
  refine ⟨hnd, ?_, ?_, ?_⟩
  · rw [(wrong_answer_lifecycle [⟨"q1", 1, "t0", [0]⟩] "q1" [1, 2] "t1" hnd).2.2.1
      ⟨⟨"q1", 1, "t0", [0]⟩, by decide, rfl⟩]
    decide
  · rw [(wrong_answer_lifecycle [⟨"q1", 1, "t0", [0]⟩] "q1" [] "t1" hnd).1]
    decide
  · rw [(wrong_answer_lifecycle [⟨"q1", 1, "t0", [0]⟩] "q2" [0] "t1" hnd).2.2.2.1
      (by decide)]
    rfl

theorem import_questions_error (file : List Question) (raw : JVal) (e : PyErr)
    (h : extractItems raw = .error e) : import_questions file raw = (.error e, file) := by
  simp [import_questions, h]

theorem extract_bad (raw : JVal) (h : badShapeSpec raw = true) :
    extractItems raw = .error .valueError := by
  cases raw with
  | null => rfl
  | bool b => rfl
  | int n => rfl
  | str s => rfl
  | list l => simp [badShapeSpec] at h
  | dict d =>
    simp only [badShapeSpec] at h
    simp only [extractItems]
    cases hv : orJ (getJ d "questions") (getJ d "data") with
    | list m => rw [hv] at h; simp at h
    | dict m => rw [hv] at h; simp at h
    | null => rw [hv] at h; simp [jtruthy] at h
    | bool b =>
      rw [hv] at h
      rw [orJ_pos (show jtruthy (JVal.bool b) = true from h)]
    | int n =>
      rw [hv] at h
      rw [orJ_pos (show jtruthy (JVal.int n) = true from h)]
    | str s =>
      rw [hv] at h
      rw [orJ_pos (show jtruthy (JVal.str s) = true from h)]

/-- C8: for every payload whose top-level shape is unrecognized (in the
sense transcribed into `badShapeSpec`), the import fails with a
`ValueError` and the question-store file is returned unchanged: the save
at the end of the batch is never reached. -/
theorem import_bad_shape_atomic (file : List Question) (raw : JVal)
    (h : badShapeSpec raw = true) :
    import_questions file raw = (.error .valueError, file) :=
  import_questions_error file raw .valueError (extract_bad raw h)

theorem import_bad_shape_atomic_witness :
    badShapeSpec (.dict [("questions", .str "oops")]) = true ∧
    import_questions [⟨"k", "q", ["x", "y"], [0], "General", ""⟩]
        (.dict [("questions", .str "oops")]) =
      (.error .valueError, [⟨"k", "q", ["x", "y"], [0], "General", ""⟩]) := by
  constructor
  · rfl
  · exact import_bad_shape_atomic [⟨"k", "q", ["x", "y"], [0], "General", ""⟩]
      (.dict [("questions", .str "oops")]) rfl

/-- C10: a single-letter answer whose letter index is out of range for the
choices is not dropped; it falls through to case-insensitive text matching,
so with a choice list whose second entry is the text "z", the out-of-range
letter answer "Z" resolves to index 1. -/
theorem letter_fallthrough (c0 : String) (h : pyToLower c0 ≠ "z") :
    normalize_correct_answers (.str "Z") [c0, "z"] = [1] := by
  have h2 : (pyToLower c0 == "z") = false := by
    rw [beq_eq_false_iff_ne]
    exact h
  have hstep : answerStep [c0, "z"] [] (.str "Z") = [1] := by
    have hdata : (pyStrip "Z").data = ['Z'] := rfl
    have hlen2 : [c0, "z"].length = 2 := rfl
    simp only [answerStep, hdata, hlen2]
    rw [if_pos (by decide)]
    rw [if_neg (by decide)]
    have hlow : pyToLower (pyStrip "Z") = "z" := rfl
    have hlz : pyToLower "z" = "z" := rfl
    simp only [hlow, hlz, List.map_cons, List.map_nil, pyIndex, h2]
    simp
  unfold normalize_correct_answers
  simp only [toAnswerList, List.foldl_cons, List.foldl_nil]
  rw [hstep]
  rfl

theorem letter_fallthrough_witness :
    pyToLower "Zulu" ≠ "z" ∧ normalize_correct_answers (.str "Z") ["Zulu", "z"] = [1] :=
  ⟨by decide, letter_fallthrough "Zulu" (by decide)⟩

theorem normalizeDict_ok {d : List (String × JVal)} {q : Question}
    (h : normalizeDict d = .ok q) :
    ∃ qtext cl,
      textJ d = .str qtext ∧ qtext ≠ "" ∧
      choicesJ d = .list cl ∧ 2 ≤ cl.length ∧
      q.id = (if jtruthy (idJ d) then pyStr (idJ d)
              else uuid5 (uuid5 NAMESPACE_DNS qtext) "cissp-question") ∧
      q.question = pyStrip qtext ∧
      q.choices = cl.map pyStr ∧
      q.correct_answers = normalize_correct_answers (correctJ d) (cl.map pyStr) ∧
      q.correct_answers ≠ [] ∧
      q.domain = domainOf d ∧
      q.comment = commentOf d := by
  simp only [normalizeDict] at h
  split at h
  · exact absurd h (by simp)
  · rename_i htruthy
    split at h
    · rename_i cl hcl
      split at h
      · exact absurd h (by simp)
      · rename_i hlen
        split at h
        · exact absurd h (by simp)
        · rename_i hcane
          split at h
          · rename_i qtext hqt
            rw [Except.ok.injEq] at h
            subst h
            rw [Bool.not_eq_false] at htruthy
            refine ⟨qtext, cl, hqt, ?_, hcl, by omega, rfl, rfl, rfl, rfl, ?_, rfl, rfl⟩
            · rw [hqt] at htruthy
              simpa [jtruthy] using htruthy
            · exact hcane
          · exact absurd h (by simp)
    · exact absurd h (by simp)

theorem normalize_ok_dict {raw : JVal} {q : Question}
    (h : normalize_question raw = .ok q) : ∃ d, raw = .dict d ∧ normalizeDict d = .ok q := by
  cases raw with
  | dict d => exact ⟨d, rfl, h⟩
  | null => exact absurd h (by simp [normalize_question])
  | bool b => exact absurd h (by simp [normalize_question])
  | int n => exact absurd h (by simp [normalize_question])
  | str s => exact absurd h (by simp [normalize_question])
  | list l => exact absurd h (by simp [normalize_question])

theorem pyIndex_lt_length (t : String) :
    ∀ (l : List String) (i : Nat), pyIndex t l = some i → i < l.length := by
  intro l
  induction l with
  | nil => simp [pyIndex]
  | cons c cs ih =>
    intro i h
    unfold pyIndex at h
    split at h
    · simp only [Option.some.injEq] at h
      simp only [List.length_cons]
      omega
    · rw [Option.map_eq_some'] at h
      obtain ⟨j, hj, hji⟩ := h
      have := ih j hj
      simp only [List.length_cons]
      omega

theorem answerStep_bound (choices : List String) (acc : List Nat) (a : JVal) :
    ∀ i ∈ answerStep choices acc a, i ∈ acc ∨ i < choices.length := by
  intro i hi
  have hsingle : ∀ (j : Nat), j < choices.length → i ∈ acc ++ [j] → i ∈ acc ∨ i < choices.length := by
    intro j hj hm
    rcases List.mem_append.mp hm with hl | hr
    · exact Or.inl hl
    · rw [List.mem_singleton] at hr
      subst hr
      exact Or.inr hj
  cases a with
  | null => exact Or.inl hi
  | list l => exact Or.inl hi
  | dict d => exact Or.inl hi
  | int n =>
    simp only [answerStep] at hi
    split at hi
    · rename_i hcond
      exact hsingle n.toNat (by omega) hi
    · exact Or.inl hi
  | bool b =>
    simp only [answerStep] at hi
    split at hi
    · rename_i hcond
      exact hsingle _ hcond hi
    · exact Or.inl hi
  | str s =>
    simp only [answerStep] at hi
    split at hi
    · rename_i c hc
      split at hi
      · split at hi
        · rename_i hcond
          exact hsingle _ hcond hi
        · split at hi
          · rename_i idx hidx
            refine hsingle idx ?_ hi
            have := pyIndex_lt_length _ _ _ hidx
            rwa [List.length_map] at this
          · exact Or.inl hi
      · split at hi
        · rename_i idx hidx
          refine hsingle idx ?_ hi
          have := pyIndex_lt_length _ _ _ hidx
          rwa [List.length_map] at this
        · exact Or.inl hi
    · split at hi
      · rename_i idx hidx
        refine hsingle idx ?_ hi
        have := pyIndex_lt_length _ _ _ hidx
        rwa [List.length_map] at this
      · exact Or.inl hi

theorem foldl_answerStep_bound (choices : List String) (l : List JVal) :
    ∀ acc, (∀ i ∈ acc, i < choices.length) →
      ∀ i ∈ l.foldl (answerStep choices) acc, i < choices.length := by
  induction l with
  | nil => exact fun acc h => h
  | cons x rest ih =>
    intro acc hacc
    rw [List.foldl_cons]
    apply ih
    intro i hi
    rcases answerStep_bound choices acc x i hi with h | h
    · exact hacc i h
    · exact h

theorem mem_pySortedSet {α : Type} [LinearOrder α] (l : List α) (a : α) :
    a ∈ pySortedSet l ↔ a ∈ l :=
  ((pySort_perm l.dedup).mem_iff).trans (List.mem_dedup)

theorem normalize_correct_answers_bound (raw : JVal) (choices : List String) :
    ∀ i ∈ normalize_correct_answers raw choices, i < choices.length := by
  intro i hi
  rw [normalize_correct_answers, mem_pySortedSet] at hi
  exact foldl_answerStep_bound choices (toAnswerList raw) [] (by simp) i hi

theorem normalize_invariant {raw : JVal} {q : Question}
    (h : normalize_question raw = .ok q) : QInvariant q := by
  obtain ⟨d, rfl, hd⟩ := normalize_ok_dict h
  obtain ⟨qtext, cl, ht, hne, hcl, hlen, hid, hq, hch, hca, hcane, hdom, hcom⟩ :=
    normalizeDict_ok hd
  refine ⟨hcane, ?_, ?_, ?_, ?_⟩
  · rw [hca]
    exact pySortedSet_nodup _
  · rw [hca]
    exact pySortedSet_sorted _
  · intro i hi
    rw [hca] at hi
    have := normalize_correct_answers_bound (correctJ d) (cl.map pyStr) i hi
    rwa [hch]
  · rw [hch, List.length_map]
    exact hlen

theorem dinsert_keys_nodup {α : Type} (f : α → String) (acc : List (String × α)) (r : α)
    (h : (acc.map Prod.fst).Nodup) : ((dinsert f acc r).map Prod.fst).Nodup := by
  rw [dinsert_keys]
  by_cases hx : acc.any (fun p => p.1 == f r) = true
  · rwa [if_pos hx]
  · rw [if_neg hx, List.nodup_append]
    refine ⟨h, List.nodup_singleton _, ?_⟩
    intro a ha hb
    rw [List.mem_singleton] at hb
    subst hb
    exact hx ((any_key_iff acc (f r)).mpr ha)

theorem dinsert_snd_key {α : Type} (f : α → String) (acc : List (String × α)) (r : α)
    (h : ∀ p ∈ acc, f p.2 = p.1) : ∀ p ∈ dinsert f acc r, f p.2 = p.1 := by
  intro p hp
  unfold dinsert at hp
  split at hp
  · rw [List.mem_map] at hp
    obtain ⟨p0, hp0, hpe⟩ := hp
    by_cases he : p0.1 = f r
    · rw [if_pos he] at hpe
      rw [← hpe, he]
    · rw [if_neg he] at hpe
      exact hpe ▸ h p0 hp0
  · rcases List.mem_append.mp hp with h2 | h2
    · exact h p h2
    · rw [List.mem_singleton] at h2
      subst h2
      rfl

theorem importLoop_ok_ids (items : List JVal) :
    ∀ (m : List (String × Question)) (i u : Nat) m2 i2 u2,
      importLoop m items i u = .ok (m2, i2, u2) →
      (m.map Prod.fst).Nodup → (∀ p ∈ m, p.2.id = p.1) →
      (m2.map Prod.fst).Nodup ∧ (∀ p ∈ m2, p.2.id = p.1) := by
  induction items with
  | nil =>
    intro m i u m2 i2 u2 h h1 h2
    unfold importLoop at h
    rw [Except.ok.injEq, Prod.mk.injEq] at h
    obtain ⟨rfl, -⟩ := h
    exact ⟨h1, h2⟩
  | cons x rest ih =>
    intro m i u m2 i2 u2 h h1 h2
    unfold importLoop at h
    split at h
    · exact ih m i u m2 i2 u2 h h1 h2
    · exact absurd h (by simp)
    · rename_i q heq
      split at h
      · exact ih _ _ _ _ _ _ h (dinsert_keys_nodup _ m q h1)
          (dinsert_snd_key _ m q h2)
      · exact ih _ _ _ _ _ _ h (dinsert_keys_nodup _ m q h1)
          (dinsert_snd_key _ m q h2)

theorem import_ok_ids (file : List Question) (raw : JVal) (s : ImportStats)
    (newfile : List Question) (h : import_questions file raw = (.ok s, newfile)) :
    (newfile.map Question.id).Nodup := by
  simp only [import_questions] at h
  split at h
  · rw [Prod.mk.injEq] at h
    exact absurd h.1 (by simp)
  · rename_i items hitems
    split at h
    · rw [Prod.mk.injEq] at h
      exact absurd h.1 (by simp)
    · rename_i res m i u heq
      rw [Prod.mk.injEq] at h
      obtain ⟨-, rfl⟩ := h
      have h0 : ((dictBuild Question.id file).map Prod.fst).Nodup := dictBuild_keys_nodup _ _
      have h0k : ∀ p ∈ dictBuild Question.id file, p.2.id = p.1 := dictBuild_snd_key _ _
      obtain ⟨hnd, hkeys⟩ := importLoop_ok_ids items _ 0 0 m i u heq h0 h0k
      have : (m.map Prod.snd).map Question.id = m.map Prod.fst := by
        rw [List.map_map]
        exact List.map_congr_left (fun p hp => hkeys p hp)
      rw [this]
      exact hnd

/-- C6: every Question produced by normalization has a non-empty,
duplicate-free, ascending correct-answer list whose indices lie within the
choices, and at least two choices; and after every successful import the
stored question ids are unique. -/
theorem canonical_question_invariant :
    (∀ (raw : JVal) (q : Question), normalize_question raw = .ok q → QInvariant q) ∧
    (∀ (file : List Question) (raw : JVal) (s : ImportStats) (newfile : List Question),
      import_questions file raw = (.ok s, newfile) → (newfile.map Question.id).Nodup) :=
  ⟨fun _ _ h => normalize_invariant h,
   fun file raw s newfile h => import_ok_ids file raw s newfile h⟩

theorem canonical_question_invariant_witness :
    QInvariant ⟨uuid5 (uuid5 NAMESPACE_DNS "q1") "cissp-question", "q1",
      ["a", "b"], [0], "General", ""⟩ ∧
    (([⟨uuid5 (uuid5 NAMESPACE_DNS "q1") "cissp-question", "q1",
        ["a", "b"], [0], "General", ""⟩] : List Question).map Question.id).Nodup := by
  constructor
  · exact canonical_question_invariant.1
      (.dict [("question", .str "q1"), ("choices", .list [.str "a", .str "b"]),
        ("answer", .list [.int 0])])
      ⟨uuid5 (uuid5 NAMESPACE_DNS "q1") "cissp-question", "q1",
        ["a", "b"], [0], "General", ""⟩
      rfl
  · exact canonical_question_invariant.2 []
      (.list [.dict [("question", .str "q1"), ("choices", .list [.str "a", .str "b"]),
        ("answer", .list [.int 0])]])
      ⟨1, 0⟩
      [⟨uuid5 (uuid5 NAMESPACE_DNS "q1") "cissp-question", "q1",
        ["a", "b"], [0], "General", ""⟩]
      rfl

/-- C7 (amended): two records whose id and uuid fields are falsy (absent,
null, empty, or zero) and whose resolved question text is identical
normalize to the same derived id, regardless of their other fields; a
record whose resolved id field is truthy gets that value converted by
`str` as its id. -/
theorem question_id_derivation :
    (∀ (d1 d2 : List (String × JVal)) (q1 q2 : Question),
      normalize_question (.dict d1) = .ok q1 → normalize_question (.dict d2) = .ok q2 →
      jtruthy (idJ d1) = false → jtruthy (idJ d2) = false →
      textJ d1 = textJ d2 → q1.id = q2.id) ∧
    (∀ (d : List (String × JVal)) (q : Question),
      normalize_question (.dict d) = .ok q → jtruthy (idJ d) = true →
      q.id = pyStr (idJ d)) := by
  constructor
  · intro d1 d2 q1 q2 h1 h2 hid1 hid2 htext
    obtain ⟨t1, cl1, ht1, -, -, -, hidq1, -⟩ := normalizeDict_ok h1
    obtain ⟨t2, cl2, ht2, -, -, -, hidq2, -⟩ := normalizeDict_ok h2
    rw [hidq1, hidq2, if_neg (by simp [hid1]), if_neg (by simp [hid2])]
    have ht : t1 = t2 := by
      rw [ht1, ht2] at htext
      exact JVal.str.inj htext
    rw [ht]
  · intro d q h hid
    obtain ⟨t, cl, -, -, -, -, hidq, -⟩ := normalizeDict_ok h
    rw [hidq, if_pos hid]

theorem question_id_derivation_witness :
    normalize_question (.dict [("question", .str "Same text"),
        ("choices", .list [.str "a", .str "b"]), ("answer", .list [.int 0])]) =
      .ok ⟨uuid5 (uuid5 NAMESPACE_DNS "Same text") "cissp-question", "Same text",
        ["a", "b"], [0], "General", ""⟩ ∧
    normalize_question (.dict [("question", .str "Same text"),
        ("choices", .list [.str "x", .str "y", .str "z"]), ("answer", .list [.int 1]),
        ("domain", .str "D"), ("comment", .str "c")]) =
      .ok ⟨uuid5 (uuid5 NAMESPACE_DNS "Same text") "cissp-question", "Same text",
        ["x", "y", "z"], [1], "D", "c"⟩ ∧
    (⟨uuid5 (uuid5 NAMESPACE_DNS "Same text") "cissp-question", "Same text",
        ["a", "b"], [0], "General", ""⟩ : Question).id =
      (⟨uuid5 (uuid5 NAMESPACE_DNS "Same text") "cissp-question", "Same text",
        ["x", "y", "z"], [1], "D", "c"⟩ : Question).id ∧
    normalize_question (.dict [("id", .str "abc"), ("question", .str "t2"),
        ("choices", .list [.str "a", .str "b"]), ("answer", .list [.int 0])]) =
      .ok ⟨"abc", "t2", ["a", "b"], [0], "General", ""⟩ ∧
    (⟨"abc", "t2", ["a", "b"], [0], "General", ""⟩ : Question).id =
      pyStr (idJ [("id", .str "abc"), ("question", .str "t2"),
        ("choices", .list [.str "a", .str "b"]), ("answer", .list [.int 0])]) := by
  refine ⟨rfl, rfl, ?_, rfl, ?_⟩
  · exact question_id_derivation.1
      [("question", .str "Same text"), ("choices", .list [.str "a", .str "b"]),
        ("answer", .list [.int 0])]
      [("question", .str "Same text"), ("choices", .list [.str "x", .str "y", .str "z"]),
        ("answer", .list [.int 1]), ("domain", .str "D"), ("comment", .str "c")]
      _ _ rfl rfl rfl rfl rfl
  · exact question_id_derivation.2
      [("id", .str "abc"), ("question", .str "t2"),
        ("choices", .list [.str "a", .str "b"]), ("answer", .list [.int 0])]
      _ rfl rfl

/-- C7 counterexample: the record supplies the id 0, whose string form is
"0", yet normalization ignores the falsy id and derives the id from the
text instead of using "0" unchanged. -/
theorem question_id_derivation_counterexample :
    normalize_question (.dict [("id", .int 0), ("question", .str "t"),
        ("choices", .list [.str "a", .str "b"]), ("answer", .list [.int 0])]) =
      .ok ⟨uuid5 (uuid5 NAMESPACE_DNS "t") "cissp-question", "t",
        ["a", "b"], [0], "General", ""⟩ ∧
    uuid5 (uuid5 NAMESPACE_DNS "t") "cissp-question" ≠
      pyStr (.int 0) := by
  exact ⟨rfl, by decide⟩

theorem find?_map_replace {α : Type} (f : α → String) (r : α) (m : List (String × α))
    (k : String) :
    (m.map (fun p => if p.1 = f r then (p.1, r) else p)).find? (fun p => p.1 == k) =
      (m.find? (fun p => p.1 == k)).map (fun p => if p.1 = f r then (p.1, r) else p) := by
  rw [List.find?_map]
  have hpred : ((fun p : String × α => p.1 == k) ∘ fun p => if p.1 = f r then (p.1, r) else p)
      = fun p : String × α => p.1 == k := by
    funext p
    simp only [Function.comp]
    rw [dinsert_fst]
  rw [hpred]

theorem lookupD_dinsert_self {α : Type} (f : α → String) (m : List (String × α)) (r : α) :
    lookupD (dinsert f m r) (f r) = some r := by
  unfold dinsert
  by_cases hx : m.any (fun p => p.1 == f r) = true
  · rw [if_pos hx]
    unfold lookupD
    rw [find?_map_replace]
    have hsome : (m.find? (fun p => p.1 == f r)).isSome := by
      rw [List.find?_isSome]
      simpa [List.any_eq_true] using hx
    obtain ⟨p0, hp0⟩ := Option.isSome_iff_exists.mp hsome
    rw [hp0]
    have hb := List.find?_some hp0
    have he : p0.1 = f r := by simpa using hb
    simp only [Option.map_some']
    rw [if_pos he]
  · rw [if_neg hx]
    unfold lookupD
    rw [List.find?_append]
    have hnone : m.find? (fun p => p.1 == f r) = none := by
      rw [List.find?_eq_none]
      intro p hp hc
      exact hx (by rw [List.any_eq_true]; exact ⟨p, hp, hc⟩)
    rw [hnone]
    simp [List.find?]

theorem lookupD_dinsert_other {α : Type} (f : α → String) (m : List (String × α)) (r : α)
    (k : String) (hk : k ≠ f r) : lookupD (dinsert f m r) k = lookupD m k := by
  unfold dinsert
  by_cases hx : m.any (fun p => p.1 == f r) = true
  · rw [if_pos hx]
    unfold lookupD
    rw [find?_map_replace]
    cases hfind : m.find? (fun p => p.1 == k) with
    | none => simp
    | some p0 =>
      have hb := List.find?_some hfind
      have he : p0.1 = k := by simpa using hb
      simp only [Option.map_some']
      rw [if_neg (by rw [he]; exact fun hc => hk hc)]
  · rw [if_neg hx]
    unfold lookupD
    rw [List.find?_append]
    cases hfind : m.find? (fun p => p.1 == k) with
    | some p0 => simp
    | none =>
      have : ((f r, r).1 == k) = false := by
        rw [beq_eq_false_iff_ne]
        exact fun hc => hk hc.symm
      simp [List.find?, this]

theorem importLoop_fresh (raws : List JVal) :
    ∀ (qs : List Question) (m : List (String × Question)) (i u : Nat),
      raws.map normalize_question = qs.map Except.ok →
      (qs.map Question.id).Nodup →
      (∀ q ∈ qs, m.any (fun p => p.1 == q.id) = false) →
      importLoop m raws i u =
        .ok (m ++ qs.map (fun q => (q.id, q)), i + qs.length, u) := by
  induction raws with
  | nil =>
    intro qs m i u hmap hnd hfresh
    have hqs : qs = [] := by
      cases qs with
      | nil => rfl
      | cons q t => simp at hmap
    subst hqs
    simp [importLoop]
  | cons x xs ih =>
    intro qs m i u hmap hnd hfresh
    cases qs with
    | nil => simp at hmap
    | cons q qs2 =>
      simp only [List.map_cons, List.cons.injEq] at hmap
      obtain ⟨hx, hxs⟩ := hmap
      have hq : m.any (fun p => p.1 == q.id) = false :=
        hfresh q (List.mem_cons_self q qs2)
      have hdin : dinsert Question.id m q = m ++ [(q.id, q)] := by
        unfold dinsert
        rw [if_neg (by rw [hq]; exact Bool.false_ne_true)]
      rw [importLoop, hx]
      show (if (m.any fun p => p.1 == q.id) = true then
          importLoop (dinsert Question.id m q) xs i (u + 1)
        else importLoop (dinsert Question.id m q) xs (i + 1) u) = _
      rw [if_neg (by rw [hq]; exact Bool.false_ne_true), hdin]
      rw [ih qs2 (m ++ [(q.id, q)]) (i + 1) u hxs
        (by rw [List.map_cons] at hnd; exact hnd.of_cons)
        (by
          intro q2 hq2
          rw [← Bool.not_eq_true, List.any_eq_true]
          rintro ⟨p, hp, hpb⟩
          rcases List.mem_append.mp hp with hin | hin
          · have : m.any (fun p => p.1 == q2.id) = true := by
              rw [List.any_eq_true]
              exact ⟨p, hin, hpb⟩
            rw [hfresh q2 (List.mem_cons_of_mem q hq2)] at this
            exact Bool.false_ne_true this
          · rw [List.mem_singleton] at hin
            subst hin
            rw [List.map_cons] at hnd
            have hne := (List.nodup_cons.mp hnd).1
            have hpb2 : q.id = q2.id := by simpa using hpb
            exact hne (by rw [hpb2]; exact List.mem_map_of_mem Question.id hq2))]
      rw [Except.ok.injEq, Prod.mk.injEq, Prod.mk.injEq]
      refine ⟨?_, ?_, rfl⟩
      · simp
      · simp only [List.length_cons]
        omega

theorem importLoop_present (raws : List JVal) :
    ∀ (qs : List Question) (m : List (String × Question)) (i u : Nat),
      raws.map normalize_question = qs.map Except.ok →
      (∀ q ∈ qs, m.any (fun p => p.1 == q.id) = true) →
      ∃ m2, importLoop m raws i u = .ok (m2, i, u + qs.length) ∧
        m2.map Prod.fst = m.map Prod.fst := by
  induction raws with
  | nil =>
    intro qs m i u hmap hpres
    have hqs : qs = [] := by
      cases qs with
      | nil => rfl
      | cons q t => simp at hmap
    subst hqs
    exact ⟨m, by simp [importLoop], rfl⟩
  | cons x xs ih =>
    intro qs m i u hmap hpres
    cases qs with
    | nil => simp at hmap
    | cons q qs2 =>
      simp only [List.map_cons, List.cons.injEq] at hmap
      obtain ⟨hx, hxs⟩ := hmap
      have hq : m.any (fun p => p.1 == q.id) = true := hpres q (List.mem_cons_self q qs2)
      have hkeys : (dinsert Question.id m q).map Prod.fst = m.map Prod.fst := by
        rw [dinsert_keys, if_pos hq]
      obtain ⟨m2, hm2, hm2keys⟩ := ih qs2 (dinsert Question.id m q) i (u + 1) hxs
        (by
          intro q2 hq2
          rw [any_key_iff, hkeys, ← any_key_iff]
          exact hpres q2 (List.mem_cons_of_mem q hq2))
      refine ⟨m2, ?_, by rw [hm2keys, hkeys]⟩
      rw [importLoop, hx]
      show (if (m.any fun p => p.1 == q.id) = true then
          importLoop (dinsert Question.id m q) xs i (u + 1)
        else importLoop (dinsert Question.id m q) xs (i + 1) u) = _
      rw [if_pos hq, hm2]
      rw [Except.ok.injEq, Prod.mk.injEq, Prod.mk.injEq]
      refine ⟨rfl, rfl, ?_⟩
      simp only [List.length_cons]
      omega

theorem import_fresh_batch (file : List Question) (raws : List JVal) (qs : List Question)
    (hmap : raws.map normalize_question = qs.map Except.ok)
    (hnd : (qs.map Question.id).Nodup)
    (hfile : (file.map Question.id).Nodup)
    (hdisj : ∀ q ∈ qs, ∀ p ∈ file, p.id ≠ q.id) :
    import_questions file (.list raws) = (.ok ⟨qs.length, 0⟩, file ++ qs) := by
  have hstart : dictBuild Question.id file = file.map (fun p => (p.id, p)) :=
    dictBuild_of_nodup _ _ hfile
  have hfresh : ∀ q ∈ qs,
      ((file.map (fun p => (p.id, p))).any (fun p => p.1 == q.id)) = false := by
    intro q hq
    rw [← Bool.not_eq_true, List.any_eq_true]
    rintro ⟨p, hp, hpb⟩
    rw [List.mem_map] at hp
    obtain ⟨p0, hp0, rfl⟩ := hp
    exact hdisj q hq p0 hp0 (by simpa using hpb)
  simp only [import_questions, extractItems]
  rw [hstart, importLoop_fresh raws qs _ 0 0 hmap hnd hfresh]
  show ((Except.ok ⟨0 + qs.length, 0⟩ : Except PyErr ImportStats),
      ((file.map fun p => (p.id, p)) ++ qs.map fun q => (q.id, q)).map Prod.snd) = _
  rw [Prod.mk.injEq]
  constructor
  · rw [Except.ok.injEq]
    simp
  · rw [List.map_append, List.map_map, List.map_map]
    have h1 : (Prod.snd ∘ fun p : Question => (p.id, p)) = id := rfl
    rw [h1, List.map_id, List.map_id]

theorem import_reimport_batch (file : List Question) (raws : List JVal) (qs : List Question)
    (hmap : raws.map normalize_question = qs.map Except.ok)
    (hfile : (file.map Question.id).Nodup)
    (hpres : ∀ q ∈ qs, ∃ p ∈ file, p.id = q.id) :
    ∃ newfile, import_questions file (.list raws) = (.ok ⟨0, qs.length⟩, newfile) ∧
      newfile.map Question.id = file.map Question.id := by
  have hstart : dictBuild Question.id file = file.map (fun p => (p.id, p)) :=
    dictBuild_of_nodup _ _ hfile
  have hany : ∀ q ∈ qs,
      ((file.map (fun p => (p.id, p))).any (fun p => p.1 == q.id)) = true := by
    intro q hq
    rw [List.any_eq_true]
    obtain ⟨p, hp, hpe⟩ := hpres q hq
    exact ⟨(p.id, p), List.mem_map_of_mem _ hp, by simpa using hpe⟩
  obtain ⟨m2, hm2, hm2keys⟩ :=
    importLoop_present raws qs (file.map (fun p => (p.id, p))) 0 0 hmap hany
  have hkeys0 : ((file.map (fun p => (p.id, p))).map Prod.fst).Nodup := by
    rw [List.map_map]
    exact hfile
  have hsnd0 : ∀ p ∈ file.map (fun p => (p.id, p)), p.2.id = p.1 := by
    intro p hp
    rw [List.mem_map] at hp
    obtain ⟨p0, hp0, rfl⟩ := hp
    rfl
  obtain ⟨hm2nd, hm2snd⟩ :=
    importLoop_ok_ids raws (file.map (fun p => (p.id, p))) 0 0 m2 0 (0 + qs.length) hm2
      hkeys0 hsnd0
  refine ⟨m2.map Prod.snd, ?_, ?_⟩
  · simp only [import_questions, extractItems]
    rw [hstart, hm2]
    show ((Except.ok ⟨0, 0 + qs.length⟩ : Except PyErr ImportStats), m2.map Prod.snd) = _
    rw [Prod.mk.injEq]
    refine ⟨?_, rfl⟩
    rw [Except.ok.injEq]
    simp
  · rw [List.map_map]
    have : m2.map (Question.id ∘ Prod.snd) = m2.map Prod.fst :=
      List.map_congr_left (fun p hp => hm2snd p hp)
    rw [this, hm2keys, List.map_map]
    rfl

/-- C3 (amended): a record failing normalization with ValueError is
skipped without aborting the batch and counted as neither imported nor
updated, but a record whose normalization crashes (a truthy non-string
question text raises AttributeError, which the importer does not catch)
aborts the batch, and on any error the store file is left unchanged; a
successfully normalized record is counted against the evolving id-keyed
mapping — updated when its id is already a key, whether from the
load-time store or from an earlier record of the same batch, imported
otherwise — and the upsert fully replaces the stored value under the id
and leaves other ids untouched; a batch of fresh questions with pairwise
distinct ids yields imported = N, updated = 0 and appends the questions;
a batch whose ids all already exist yields imported = 0, updated = N and
preserves the stored id set. -/
theorem importer_counts_upsert :
    (∀ (m : List (String × Question)) (x : JVal) (rest : List JVal) (i u : Nat),
      normalize_question x = .error .valueError →
      importLoop m (x :: rest) i u = importLoop m rest i u) ∧
    (∀ (m : List (String × Question)) (x : JVal) (rest : List JVal) (i u : Nat),
      normalize_question x = .error .typeError →
      importLoop m (x :: rest) i u = .error .typeError) ∧
    (∀ (file : List Question) (raw : JVal) (e : PyErr),
      (import_questions file raw).1 = .error e → (import_questions file raw).2 = file) ∧
    (∀ (m : List (String × Question)) (x : JVal) (rest : List JVal) (i u : Nat)
        (q : Question),
      normalize_question x = .ok q →
      (m.any (fun p => p.1 == q.id) = true →
        importLoop m (x :: rest) i u = importLoop (dinsert Question.id m q) rest i (u + 1)) ∧
      (m.any (fun p => p.1 == q.id) = false →
        importLoop m (x :: rest) i u = importLoop (m ++ [(q.id, q)]) rest (i + 1) u)) ∧
    (∀ (m : List (String × Question)) (q : Question),
      lookupD (dinsert Question.id m q) q.id = some q ∧
      ∀ k, k ≠ q.id → lookupD (dinsert Question.id m q) k = lookupD m k) ∧
    (∀ (file : List Question) (raws : List JVal) (qs : List Question),
      raws.map normalize_question = qs.map Except.ok →
      (qs.map Question.id).Nodup →
      (file.map Question.id).Nodup →
      (∀ q ∈ qs, ∀ p ∈ file, p.id ≠ q.id) →
      import_questions file (.list raws) = (.ok ⟨qs.length, 0⟩, file ++ qs)) ∧
    (∀ (file : List Question) (raws : List JVal) (qs : List Question),
      raws.map normalize_question = qs.map Except.ok →
      (file.map Question.id).Nodup →
      (∀ q ∈ qs, ∃ p ∈ file, p.id = q.id) →
      ∃ newfile, import_questions file (.list raws) = (.ok ⟨0, qs.length⟩, newfile) ∧
        newfile.map Question.id = file.map Question.id) := by
  refine ⟨?_, ?_, ?_, ?_, ?_, import_fresh_batch, import_reimport_batch⟩
  · intro m x rest i u h
    rw [importLoop, h]
  · intro m x rest i u h
    rw [importLoop, h]
  · intro file raw e h
    by_cases hx : ∃ items, extractItems raw = .ok items
    · obtain ⟨items, hxi⟩ := hx
      by_cases hl : ∃ t, importLoop (dictBuild Question.id file) items 0 0 = .ok t
      · obtain ⟨⟨m, i, u⟩, hlt⟩ := hl
        have hres : import_questions file raw = (.ok ⟨i, u⟩, m.map Prod.snd) := by
          simp [import_questions, hxi, hlt]
        rw [hres] at h
        simp at h
      · have he : ∃ e2, importLoop (dictBuild Question.id file) items 0 0 = .error e2 := by
          cases hres : importLoop (dictBuild Question.id file) items 0 0 with
          | error e2 => exact ⟨e2, rfl⟩
          | ok t => exact absurd ⟨t, hres⟩ hl
        obtain ⟨e2, he2⟩ := he
        have hres : import_questions file raw = (.error e2, file) := by
          simp [import_questions, hxi, he2]
        rw [hres]
    · have he : ∃ e2, extractItems raw = .error e2 := by
        cases hres : extractItems raw with
        | error e2 => exact ⟨e2, rfl⟩
        | ok t => exact absurd ⟨t, hres⟩ hx
      obtain ⟨e2, he2⟩ := he
      rw [import_questions_error file raw e2 he2]
  · intro m x rest i u q h
    constructor
    · intro hp
      rw [importLoop, h]
      show (if (m.any fun p => p.1 == q.id) = true then
          importLoop (dinsert Question.id m q) rest i (u + 1)
        else importLoop (dinsert Question.id m q) rest (i + 1) u) = _
      rw [if_pos hp]
    · intro hp
      rw [importLoop, h]
      show (if (m.any fun p => p.1 == q.id) = true then
          importLoop (dinsert Question.id m q) rest i (u + 1)
        else importLoop (dinsert Question.id m q) rest (i + 1) u) = _
      rw [if_neg (by rw [hp]; exact Bool.false_ne_true)]
      have hdin : dinsert Question.id m q = m ++ [(q.id, q)] := by
        unfold dinsert
        rw [if_neg (by rw [hp]; exact Bool.false_ne_true)]
      rw [hdin]
  · intro m q
    exact ⟨lookupD_dinsert_self Question.id m q,
      fun k hk => lookupD_dinsert_other Question.id m q k hk⟩

theorem importer_counts_upsert_witness :
    importLoop [] [.dict [("question", .str "bad")]] 0 0 = importLoop [] [] 0 0 ∧
    importLoop [] [.dict [("question", .int 5), ("id", .str "x"),
        ("choices", .list [.str "a", .str "b"]), ("answer", .list [.int 1])]] 0 0 =
      .error .typeError ∧
    (import_questions [⟨"k", "q", ["x", "y"], [0], "General", ""⟩] (.str "bad")).2 =
      [⟨"k", "q", ["x", "y"], [0], "General", ""⟩] ∧
    importLoop [("d1", ⟨"d1", "t", ["a", "b"], [0], "General", ""⟩)]
        [.dict [("id", .str "d1"), ("question", .str "t"),
          ("choices", .list [.str "a", .str "b"]), ("answer", .list [.int 0])]] 0 0 =
      importLoop
        (dinsert Question.id [("d1", ⟨"d1", "t", ["a", "b"], [0], "General", ""⟩)]
          ⟨"d1", "t", ["a", "b"], [0], "General", ""⟩) [] 0 1 ∧
    lookupD (dinsert Question.id
        [("x1", ⟨"x1", "t", ["a", "b"], [0], "General", ""⟩)]
        ⟨"x1", "t2", ["c", "d"], [1], "D", ""⟩) "x1" =
      some ⟨"x1", "t2", ["c", "d"], [1], "D", ""⟩ ∧
    import_questions []
        (.list [.dict [("question", .str "q1"),
            ("choices", .list [.str "a", .str "b"]), ("answer", .list [.int 0])],
          .dict [("question", .str "q2"),
            ("choices", .list [.str "a", .str "b"]), ("answer", .list [.int 1])]]) =
      (.ok ⟨2, 0⟩,
        [⟨uuid5 (uuid5 NAMESPACE_DNS "q1") "cissp-question", "q1",
            ["a", "b"], [0], "General", ""⟩,
          ⟨uuid5 (uuid5 NAMESPACE_DNS "q2") "cissp-question", "q2",
            ["a", "b"], [1], "General", ""⟩]) ∧
    ∃ newfile,
      import_questions
          [⟨uuid5 (uuid5 NAMESPACE_DNS "q1") "cissp-question", "q1",
            ["a", "b"], [0], "General", ""⟩]
          (.list [.dict [("question", .str "q1"),
            ("choices", .list [.str "a", .str "b"]), ("answer", .list [.int 0]),
            ("domain", .str "D")]]) =
        (.ok ⟨0, 1⟩, newfile) ∧
      newfile.map Question.id =
        ([⟨uuid5 (uuid5 NAMESPACE_DNS "q1") "cissp-question", "q1",
          ["a", "b"], [0], "General", ""⟩] : List Question).map Question.id := by
  refine ⟨importer_counts_upsert.1 [] _ [] 0 0 rfl,
    importer_counts_upsert.2.1 [] _ [] 0 0 rfl,
    importer_counts_upsert.2.2.1 [⟨"k", "q", ["x", "y"], [0], "General", ""⟩]
      (.str "bad") .valueError rfl,
    (importer_counts_upsert.2.2.2.1
      [("d1", ⟨"d1", "t", ["a", "b"], [0], "General", ""⟩)]
      (.dict [("id", .str "d1"), ("question", .str "t"),
        ("choices", .list [.str "a", .str "b"]), ("answer", .list [.int 0])])
      [] 0 0 ⟨"d1", "t", ["a", "b"], [0], "General", ""⟩ rfl).1 rfl,
    (importer_counts_upsert.2.2.2.2.1
      [("x1", ⟨"x1", "t", ["a", "b"], [0], "General", ""⟩)]
      ⟨"x1", "t2", ["c", "d"], [1], "D", ""⟩).1, ?_, ?_⟩
  · exact importer_counts_upsert.2.2.2.2.2.1 []
      [.dict [("question", .str "q1"),
        ("choices", .list [.str "a", .str "b"]), ("answer", .list [.int 0])],
       .dict [("question", .str "q2"),
        ("choices", .list [.str "a", .str "b"]), ("answer", .list [.int 1])]]
      [⟨uuid5 (uuid5 NAMESPACE_DNS "q1") "cissp-question", "q1",
          ["a", "b"], [0], "General", ""⟩,
        ⟨uuid5 (uuid5 NAMESPACE_DNS "q2") "cissp-question", "q2",
          ["a", "b"], [1], "General", ""⟩]
      rfl (by decide) (by simp) (by simp)
  · exact importer_counts_upsert.2.2.2.2.2.2
      [⟨uuid5 (uuid5 NAMESPACE_DNS "q1") "cissp-question", "q1",
        ["a", "b"], [0], "General", ""⟩]
      [.dict [("question", .str "q1"),
        ("choices", .list [.str "a", .str "b"]), ("answer", .list [.int 0]),
        ("domain", .str "D")]]
      [⟨uuid5 (uuid5 NAMESPACE_DNS "q1") "cissp-question", "q1",
        ["a", "b"], [0], "D", ""⟩]
      rfl (by simp)
      (by
        intro q hq
        rw [List.mem_singleton] at hq
        subst hq
        exact ⟨⟨uuid5 (uuid5 NAMESPACE_DNS "q1") "cissp-question", "q1",
          ["a", "b"], [0], "General", ""⟩, by simp, rfl⟩)

theorem data_append (s t : String) : (s ++ t).data = s.data ++ t.data := rfl

theorem strip_default_spec (d0 : String) (h : pyStrip d0 = d0) :
    (if d0 = "" then "General" else d0) ≠ "" ∧
    pyStrip (if d0 = "" then "General" else d0) = (if d0 = "" then "General" else d0) := by
  by_cases h0 : d0 = ""
  · rw [if_pos h0]
    exact ⟨by decide, by decide⟩
  · rw [if_neg h0]
    exact ⟨h0, h⟩

theorem domainOf_spec (d : List (String × JVal)) :
    domainOf d ≠ "" ∧ pyStrip (domainOf d) = domainOf d := by
  simp only [domainOf]
  cases hv : getJD d "domain" (JVal.str "General") with
  | null => exact strip_default_spec "General" (by decide)
  | bool b => exact strip_default_spec _ (pyStrip_idem _)
  | int n => exact strip_default_spec _ (pyStrip_idem _)
  | str s => exact strip_default_spec _ (pyStrip_idem _)
  | list l => exact strip_default_spec _ (pyStrip_idem _)
  | dict m => exact strip_default_spec _ (pyStrip_idem _)

theorem commentOf_strip (d : List (String × JVal)) :
    pyStrip (commentOf d) = commentOf d :=
  pyStrip_idem _

theorem natDigitsAux_length :
    ∀ n : Nat, ∀ acc : List Char, acc.length ≤ (natDigitsAux n acc).length := by
  intro n
  induction n using Nat.strong_induction_on with
  | _ n ih =>
    intro acc
    match n with
    | 0 => simp [natDigitsAux]
    | m + 1 =>
      rw [natDigitsAux]
      calc acc.length ≤ (Char.ofNat (48 + (m + 1) % 10) :: acc).length := by
            simp
        _ ≤ _ := ih ((m + 1) / 10) (Nat.div_lt_self (Nat.succ_pos m) (by omega)) _

theorem natDigitsAux_ne_nil (n : Nat) (h : n ≠ 0) : natDigitsAux n [] ≠ [] := by
  match n with
  | 0 => exact absurd rfl h
  | m + 1 =>
    rw [natDigitsAux]
    intro hc
    have hlen := natDigitsAux_length ((m + 1) / 10) [Char.ofNat (48 + (m + 1) % 10)]
    rw [hc] at hlen
    simp at hlen

theorem natRepr_ne_empty (n : Nat) : natRepr n ≠ "" := by
  unfold natRepr
  by_cases h : n = 0
  · rw [if_pos h]
    decide
  · rw [if_neg h]
    intro hc
    have h2 := congrArg String.data hc
    exact natDigitsAux_ne_nil n h h2

theorem pyIntStr_ne_empty (i : Int) : pyIntStr i ≠ "" := by
  unfold pyIntStr
  by_cases h : i < 0
  · rw [if_pos h]
    intro hc
    have h2 := congrArg String.data hc
    rw [data_append] at h2
    simp at h2
  · rw [if_neg h]
    exact natRepr_ne_empty _

theorem uuid5_ne_empty (ns name : String) : uuid5 ns name ≠ "" := by
  unfold uuid5
  intro hc
  have h2 := congrArg String.data hc
  rw [data_append, data_append, data_append] at h2
  simp at h2

theorem jtruthy_pyStr_ne_empty (v : JVal) (h : jtruthy v = true) : pyStr v ≠ "" := by
  cases v with
  | null => simp [jtruthy] at h
  | bool b =>
    cases b with
    | false => simp [jtruthy] at h
    | true => decide
  | int n => exact pyIntStr_ne_empty n
  | str s => simpa [jtruthy] using h
  | list l =>
    show pyRepr (.list l) ≠ ""
    rw [pyRepr]
    intro hc
    have h2 := congrArg String.data hc
    rw [data_append, data_append] at h2
    simp at h2
  | dict d =>
    show pyRepr (.dict d) ≠ ""
    rw [pyRepr]
    intro hc
    have h2 := congrArg String.data hc
    rw [data_append, data_append] at h2
    simp at h2

theorem jtruthy_str_of_ne {s : String} (h : s ≠ "") : jtruthy (JVal.str s) = true := by
  simp only [jtruthy, bne_iff_ne, ne_eq]
  exact h

theorem textJ_qPairs (q : Question) (hq : q.question ≠ "") :
    textJ (qPairs q) = .str q.question := by
  have htr := jtruthy_str_of_ne hq
  unfold textJ
  rw [show getJ (qPairs q) "question" = .str q.question from rfl, orJ_pos htr, orJ_pos htr]

theorem choicesJ_qPairs (q : Question) (h : q.choices ≠ []) :
    choicesJ (qPairs q) = .list (q.choices.map JVal.str) := by
  have htr : jtruthy (JVal.list (q.choices.map JVal.str)) = true := by
    simp only [jtruthy, Bool.not_eq_true']
    rw [List.isEmpty_eq_false_iff_exists_mem]
    obtain ⟨c, hc⟩ := List.exists_mem_of_ne_nil _ h
    exact ⟨JVal.str c, List.mem_map_of_mem _ hc⟩
  unfold choicesJ
  rw [show getJ (qPairs q) "choices" = .list (q.choices.map JVal.str) from rfl, orJ_pos htr]

theorem correctJ_qPairs (q : Question) (h : q.correct_answers ≠ []) :
    correctJ (qPairs q) =
      .list (q.correct_answers.map (fun i => JVal.int (Int.ofNat i))) := by
  have htr : jtruthy
      (JVal.list (q.correct_answers.map (fun i => JVal.int (Int.ofNat i)))) = true := by
    simp only [jtruthy, Bool.not_eq_true']
    rw [List.isEmpty_eq_false_iff_exists_mem]
    obtain ⟨c, hc⟩ := List.exists_mem_of_ne_nil _ h
    exact ⟨JVal.int (Int.ofNat c), List.mem_map_of_mem _ hc⟩
  unfold correctJ
  rw [show getJ (qPairs q) "correct_answers" =
    .list (q.correct_answers.map (fun i => JVal.int (Int.ofNat i))) from rfl]
  rw [orJ_pos htr, orJ_pos htr, orJ_pos htr]

theorem domainOf_qPairs (q : Question) (h1 : q.domain ≠ "")
    (h2 : pyStrip q.domain = q.domain) : domainOf (qPairs q) = q.domain := by
  unfold domainOf
  rw [show getJD (qPairs q) "domain" (.str "General") = .str q.domain from rfl]
  show (if pyStrip q.domain = "" then "General" else pyStrip q.domain) = q.domain
  rw [h2, if_neg h1]

theorem commentOf_qPairs (q : Question) (h2 : pyStrip q.comment = q.comment) :
    commentOf (qPairs q) = q.comment := by
  unfold commentOf
  rw [show getJ (qPairs q) "comment" = .str q.comment from rfl]
  by_cases hc : q.comment = ""
  · rw [hc]
    rfl
  · have htr := jtruthy_str_of_ne hc
    rw [orJ_pos htr, orJ_pos htr]
    show pyStrip q.comment = q.comment
    exact h2

theorem idJ_qPairs (q : Question) (h : q.id ≠ "") :
    idJ (qPairs q) = .str q.id := by
  unfold idJ
  rw [show getJ (qPairs q) "id" = .str q.id from rfl, orJ_pos (jtruthy_str_of_ne h)]

theorem foldl_answerStep_ints (choices : List String) (ca : List Nat)
    (h : ∀ i ∈ ca, i < choices.length) :
    ∀ acc, (ca.map (fun i => JVal.int (Int.ofNat i))).foldl (answerStep choices) acc =
      acc ++ ca := by
  induction ca with
  | nil => simp
  | cons a t ih =>
    intro acc
    simp only [List.map_cons, List.foldl_cons]
    have hstep : answerStep choices acc (.int (Int.ofNat a)) = acc ++ [a] := by
      simp only [answerStep]
      rw [if_pos ⟨Int.ofNat_nonneg a,
        Int.ofNat_lt.mpr (h a (List.mem_cons_self a t))⟩]
      rfl
    rw [hstep, ih (fun i hi => h i (List.mem_cons_of_mem a hi)) (acc ++ [a])]
    simp

theorem nca_int_list (choices : List String) (ca : List Nat)
    (hb : ∀ i ∈ ca, i < choices.length) :
    normalize_correct_answers (.list (ca.map (fun i => JVal.int (Int.ofNat i)))) choices =
      pySortedSet ca := by
  unfold normalize_correct_answers
  rw [show toAnswerList (.list (ca.map (fun i => JVal.int (Int.ofNat i)))) =
    ca.map (fun i => JVal.int (Int.ofNat i)) from rfl]
  rw [foldl_answerStep_ints choices ca hb []]
  rfl

/-- C4 (amended): for every raw record that normalization accepts and whose
canonical question text is non-empty, re-normalizing the canonical Question
succeeds and returns it unchanged: normalize(normalize(q)) = normalize(q).
(When the raw text is whitespace-only the stripped canonical text is empty
and re-normalization rejects it, see the counterexample.) -/
theorem normalize_idempotent {raw : JVal} {q : Question}
    (h : normalize_question raw = .ok q) (hqne : q.question ≠ "") :
    normalize_question (questionToJ q) = .ok q := by
  obtain ⟨hcane, hnd, hsort, hbound, hlen⟩ := normalize_invariant h
  obtain ⟨d, rfl, hd⟩ := normalize_ok_dict h
  obtain ⟨qtext, cl, ht, hne, hcl, hclen, hid, hqq, hch, hca, hcane2, hdom, hcom⟩ :=
    normalizeDict_ok hd
  have hstripq : pyStrip q.question = q.question := by
    rw [hqq]
    exact pyStrip_idem qtext
  have hdomspec := domainOf_spec d
  have hdomne : q.domain ≠ "" := by rw [hdom]; exact hdomspec.1
  have hdomstable : pyStrip q.domain = q.domain := by rw [hdom]; exact hdomspec.2
  have hcomstable : pyStrip q.comment = q.comment := by rw [hcom]; exact commentOf_strip d
  have hidne : q.id ≠ "" := by
    rw [hid]
    by_cases hj : jtruthy (idJ d) = true
    · rw [if_pos hj]
      exact jtruthy_pyStr_ne_empty _ hj
    · rw [if_neg hj]
      exact uuid5_ne_empty _ _
  have hchne : q.choices ≠ [] := by
    intro hc
    rw [hc] at hlen
    simp at hlen
  have hmapid : (q.choices.map JVal.str).map pyStr = q.choices := by
    rw [List.map_map]
    have hcompid : (pyStr ∘ JVal.str) = id := rfl
    rw [hcompid, List.map_id]
  have hcomp : normalize_correct_answers (correctJ (qPairs q))
      ((q.choices.map JVal.str).map pyStr) = q.correct_answers := by
    rw [hmapid, correctJ_qPairs q hcane, nca_int_list q.choices q.correct_answers hbound,
      pySortedSet_eq_self hsort hnd]
  show normalizeDict (qPairs q) = .ok q
  unfold normalizeDict
  rw [textJ_qPairs q hqne, choicesJ_qPairs q hchne]
  show (if jtruthy (JVal.str q.question) = false then Except.error PyErr.valueError
    else
      if (q.choices.map JVal.str).length < 2 then Except.error PyErr.valueError
      else
        if normalize_correct_answers (correctJ (qPairs q))
            ((q.choices.map JVal.str).map pyStr) = [] then
          Except.error PyErr.valueError
        else
          Except.ok
            { id := if jtruthy (idJ (qPairs q)) = true then pyStr (idJ (qPairs q))
                    else uuid5 (uuid5 NAMESPACE_DNS q.question) "cissp-question",
              question := pyStrip q.question,
              choices := (q.choices.map JVal.str).map pyStr,
              correct_answers := normalize_correct_answers (correctJ (qPairs q))
                ((q.choices.map JVal.str).map pyStr),
              domain := domainOf (qPairs q),
              comment := commentOf (qPairs q) }) = Except.ok q
  rw [if_neg (by simp [jtruthy_str_of_ne hqne])]
  rw [if_neg (by
    rw [List.length_map]
    omega)]
  rw [hcomp, if_neg hcane, hmapid, hstripq, idJ_qPairs q hidne,
    if_pos (jtruthy_str_of_ne hidne), domainOf_qPairs q hdomne hdomstable,
    commentOf_qPairs q hcomstable]
  rfl

theorem normalize_idempotent_witness :
    normalize_question (.dict [("question", .str " What? "),
        ("choices", .list [.str "a", .str "b"]), ("answer", .list [.int 1])]) =
      .ok ⟨uuid5 (uuid5 NAMESPACE_DNS " What? ") "cissp-question", "What?",
        ["a", "b"], [1], "General", ""⟩ ∧
    normalize_question (questionToJ ⟨uuid5 (uuid5 NAMESPACE_DNS " What? ") "cissp-question",
        "What?", ["a", "b"], [1], "General", ""⟩) =
      .ok ⟨uuid5 (uuid5 NAMESPACE_DNS " What? ") "cissp-question", "What?",
        ["a", "b"], [1], "General", ""⟩ :=
  ⟨rfl,
    @normalize_idempotent
      (.dict [("question", .str " What? "),
        ("choices", .list [.str "a", .str "b"]), ("answer", .list [.int 1])])
      ⟨uuid5 (uuid5 NAMESPACE_DNS " What? ") "cissp-question", "What?",
        ["a", "b"], [1], "General", ""⟩
      rfl (by decide)⟩

/-- C4 counterexample: a whitespace-only question text is truthy, so the
record normalizes successfully, but its canonical text strips to the empty
string; feeding the canonical Question back into normalization fails with
ValueError instead of returning it unchanged. -/
theorem normalize_idempotent_counterexample :
    normalize_question (.dict [("question", .str "   "),
        ("choices", .list [.str "a", .str "b"]), ("answer", .list [.int 0])]) =
      .ok ⟨uuid5 (uuid5 NAMESPACE_DNS "   ") "cissp-question", "",
        ["a", "b"], [0], "General", ""⟩ ∧
    normalize_question (questionToJ ⟨uuid5 (uuid5 NAMESPACE_DNS "   ") "cissp-question", "",
        ["a", "b"], [0], "General", ""⟩) = .error .valueError :=
  ⟨rfl, rfl⟩

/-- C3 counterexample: (1) a record with truthy non-string question text
(here the number 5) passes every ValueError check and then crashes at
`question_text.strip()` with an AttributeError that the importer's
`except ValueError` does not catch, so the batch aborts and the valid
sibling record is not imported — the record is not "skipped without
aborting the batch"; (2) two identical fresh records in one batch are
counted against the evolving dict, yielding imported = 1, updated = 1,
whereas counting against the load-time (empty) store would make both ids
fresh and yield imported = 2, updated = 0. -/
theorem importer_counts_upsert_counterexample :
    import_questions []
        (.list [.dict [("question", .int 5), ("id", .str "x"),
            ("choices", .list [.str "a", .str "b"]), ("answer", .list [.int 1])],
          .dict [("question", .str "ok"), ("choices", .list [.str "a", .str "b"]),
            ("answer", .list [.int 0])]]) =
      (.error .typeError, []) ∧
    import_questions []
        (.list [.dict [("question", .str "dup"), ("choices", .list [.str "a", .str "b"]),
            ("answer", .list [.int 0])],
          .dict [("question", .str "dup"), ("choices", .list [.str "a", .str "b"]),
            ("answer", .list [.int 0])]]) =
      (.ok ⟨1, 1⟩, [⟨uuid5 (uuid5 NAMESPACE_DNS "dup") "cissp-question", "dup",
        ["a", "b"], [0], "General", ""⟩]) ∧
    ((⟨1, 1⟩ : ImportStats) ≠ ⟨2, 0⟩) :=
  ⟨rfl, rfl, by decide⟩
